import Mathlib

/-!
Verification of the `dconfig` Go package (option registry and
line-parsing / coercion engine) against its specification.

The Go source (`dconfig.go`) is shallowly embedded below:

* Go `uint8` bit flags are modelled as `Nat` with bitwise `&&&` / `|||`;
* Go maps holding pointers to caller-owned targets are modelled as
  association lists from canonical option name to the current target
  value (a successful coercion writes the new value in place);
* Go `string` is Lean `String`; the Unicode-aware helpers
  `strings.ToUpper` / `ToLower` / `TrimSpace` are modelled on their
  ASCII / Latin-1 fragments, which is the fragment every claim uses;
* `float64` targets are modelled by the decimal token text that
  `strconv.ParseFloat` would parse, since no claim depends on IEEE
  numeric semantics, only on which writes happen;
* a nil-map-entry dereference (a Go panic) is modelled by `Option.none`
  propagating out of `setOption` / `Configure`;
* the regular expressions compiled in `init()` are translated to
  executable functions following Go's (RE2) leftmost-first,
  greedy-with-backtracking submatch semantics.
-/

set_option maxRecDepth 4000

/-- Is `c` an ASCII lowercase letter. -/
def lowAZ (c : Char) : Bool := 'a' <= c && c <= 'z'

/-- Is `c` an ASCII uppercase letter. -/
def upAZ (c : Char) : Bool := 'A' <= c && c <= 'Z'

/-- ASCII fragment of the character case-fold used by Go `strings.ToUpper`. -/
def goUpChar (c : Char) : Char :=
  if lowAZ c then Char.ofNat (c.toNat - 32) else c

/-- ASCII fragment of the character case-fold used by Go `strings.ToLower`. -/
def goLowChar (c : Char) : Char :=
  if upAZ c then Char.ofNat (c.toNat + 32) else c

/-- Model of Go `strings.ToUpper` (ASCII fragment). -/
def goToUpper (s : String) : String := String.mk (s.data.map goUpChar)

/-- Model of Go `strings.ToLower` (ASCII fragment). -/
def goToLower (s : String) : String := String.mk (s.data.map goLowChar)

/-- The character class matched by `\s` in Go regular expressions:
`[\t\n\f\r ]`. -/
def goRegexSpace (c : Char) : Bool :=
  c = ' ' || c = '\t' || c = '\n' || c = Char.ofNat 12 || c = '\r'

/-- The Latin-1 fragment of `unicode.IsSpace`, the predicate used by Go
`strings.TrimSpace`. -/
def goUniSpace (c : Char) : Bool :=
  c = ' ' || c = '\t' || c = '\n' || c = Char.ofNat 11 || c = Char.ofNat 12 ||
  c = '\r' || c = Char.ofNat 133 || c = Char.ofNat 160

/-- Model of Go `strings.TrimSpace` (Latin-1 fragment). -/
def goTrimSpace (s : String) : String :=
  String.mk (((s.data.dropWhile goUniSpace).reverse.dropWhile goUniSpace).reverse)

/-- Is `c` an ASCII digit (the class `\d` / `[0-9]` of the Go regexes). -/
def isDigitC (c : Char) : Bool := '0' <= c && c <= '9'

/-- Lookup in an association list; models reading a Go map. -/
def alookup {α : Type} : List (String × α) → String → Option α
  | [], _ => none
  | (k', v) :: t, k => if k' = k then some v else alookup t k

/-- Replace the value at key `k` (first occurrence) if present; models
writing through the pointer stored in a Go map entry. -/
def aset {α : Type} : List (String × α) → String → α → List (String × α)
  | [], _, _ => []
  | (k', v') :: t, k, v => if k' = k then (k', v) :: t else (k', v') :: aset t k v

/-- Insert or overwrite key `k`; models a Go map assignment `m[k] = v`. -/
def ainsert {α : Type} (l : List (String × α)) (k : String) (v : α) :
    List (String × α) :=
  if (alookup l k).isSome then aset l k v else (k, v) :: l

theorem alookup_aset {α : Type} (l : List (String × α)) (k : String) (v : α)
    (k' : String) :
    alookup (aset l k v) k' =
      if k' = k then (if (alookup l k).isSome then some v else none)
      else alookup l k' := by
  induction l with
  | nil => simp [aset, alookup]
  | cons hd t ih =>
    obtain ⟨k0, v0⟩ := hd
    by_cases h0 : k0 = k
    · subst h0
      by_cases h1 : k' = k0
      · subst h1
        simp [aset, alookup]
      · have h1' : ¬k0 = k' := fun hh => h1 hh.symm
        simp [aset, alookup, h1, h1']
    · by_cases h1 : k0 = k'
      · subst h1
        have h2' : ¬k0 = k := h0
        simp [aset, alookup, h0, h2']
      · simp [aset, alookup, h0, h1, ih]

theorem alookup_aset_isSome {α : Type} (l : List (String × α)) (k : String)
    (v : α) (k' : String) :
    (alookup (aset l k v) k').isSome = (alookup l k').isSome := by
  rw [alookup_aset]
  by_cases h : k' = k
  · subst h
    cases h2 : (alookup l k').isSome <;> simp [h2]
  · simp [h]

theorem alookup_ainsert {α : Type} (l : List (String × α)) (k : String) (v : α)
    (k' : String) :
    alookup (ainsert l k v) k' = if k' = k then some v else alookup l k' := by
  unfold ainsert
  by_cases hp : (alookup l k).isSome
  · rw [if_pos hp, alookup_aset]
    by_cases h : k' = k <;> simp [h, hp]
  · rw [if_neg hp]
    by_cases h : k' = k
    · subst h
      simp [alookup]
    · have h' : ¬k = k' := fun hh => h hh.symm
      simp [alookup, h, h']

deriving instance DecidableEq for Except

/-- Flag constant `STRIP` from the source. -/
def STRIP : Nat := 1

/-- Flag constant `UPPER` from the source. -/
def UPPER : Nat := 2

/-- Flag constant `LOWER` from the source. -/
def LOWER : Nat := 4

/-- Flag constant `UNSIGNED` from the source. -/
def UNSIGNED : Nat := 8

/-- Flag constant `NONE` from the source. -/
def NONE : Nat := 0

/-- Type constant `BOOL` from the source. -/
def BOOL : Nat := 16

/-- Type constant `STRING` from the source. -/
def STRING : Nat := 128

/-- Type constant `INT` from the source. -/
def INT : Nat := 64

/-- Type constant `FLOAT` from the source. -/
def FLOAT : Nat := 32

/-- Constant `all_types` from the source. -/
def all_types : Nat := STRING ||| INT ||| FLOAT ||| BOOL

/-- Constant `disallowed_str_opts` from the source. -/
def disallowed_str_opts : Nat := UNSIGNED

/-- Constant `disallowed_int_opts` from the source. -/
def disallowed_int_opts : Nat := STRIP ||| UPPER ||| LOWER

/-- Constant `disallowed_float_opts` from the source. -/
def disallowed_float_opts : Nat := STRIP ||| UPPER ||| LOWER

/-- Source function `hasAttr`: is the bit `attrib` set in `val`. -/
def hasAttr (val attrib : Nat) : Bool :=
  if val &&& attrib = 0 then false else true

/-- Source array `boolean_trues`. -/
def boolean_trues : List String := ["1", "t", "true", "y", "yes", "+"]

/-- Source array `boolean_falses`. -/
def boolean_falses : List String := ["0", "f", "false", "n", "no", "-", "nil"]

/-- The distinct error conditions of the package, one constructor per
`errors.New` site in the source, named after the spec's error taxonomy. -/
inductive Err : Type where
  | unsupportedFlag : Err
  | duplicateOption : Err
  | noConfigFileFound : Err
  | fileOpenError : Err
  | unrecognizedOption : Err
  | coercionFailure : Err
  | logicalError : Err
deriving DecidableEq, Repr

/-- The package-level mutable state: the four target maps and the flag
map.  A map entry holds the current value of the caller-owned target the
Go code keeps a pointer to; `float64` targets are modelled by the token
text that produced them (see the file comment). -/
structure Registry : Type where
  str_map : List (String × String)
  int_map : List (String × Int)
  float_map : List (String × String)
  bool_map : List (String × Bool)
  option_flags : List (String × Nat)
deriving DecidableEq, Repr

/-- Source function `Reset`: all maps become empty. -/
def Reset : Registry := ⟨[], [], [], [], []⟩

/-- Source function `OptionType`: looks the (upper-cased) name up in the
four maps in source order and returns the corresponding type constant,
or `NONE` when the name is nowhere. -/
def OptionType (reg : Registry) (opt : String) : Nat :=
  let uname := goToUpper opt
  if (alookup reg.str_map uname).isSome then STRING
  else if (alookup reg.int_map uname).isSome then INT
  else if (alookup reg.float_map uname).isSome then FLOAT
  else if (alookup reg.bool_map uname).isSome then BOOL
  else NONE

/-- Source function `optionExists`. -/
def optionExists (reg : Registry) (opt : String) : Bool :=
  OptionType reg opt != NONE

/-- Source function `AddInt`. -/
def AddInt (reg : Registry) (target : Int) (name : String) (flags : Nat) :
    Except Err Registry :=
  if flags &&& disallowed_int_opts ≠ 0 then .error .unsupportedFlag
  else
    let uname := goToUpper name
    if optionExists reg uname then .error .duplicateOption
    else .ok { reg with
      int_map := ainsert reg.int_map uname target,
      option_flags := ainsert reg.option_flags uname (flags ||| INT) }

/-- Source function `AddString`. -/
def AddString (reg : Registry) (target : String) (name : String) (flags : Nat) :
    Except Err Registry :=
  if flags &&& disallowed_str_opts ≠ 0 then .error .unsupportedFlag
  else
    let uname := goToUpper name
    if optionExists reg uname then .error .duplicateOption
    else .ok { reg with
      str_map := ainsert reg.str_map uname target,
      option_flags := ainsert reg.option_flags uname (flags ||| STRING) }

/-- Source function `AddFloat`; the `float64` target is modelled by its
token text. -/
def AddFloat (reg : Registry) (target : String) (name : String) (flags : Nat) :
    Except Err Registry :=
  if flags &&& disallowed_float_opts ≠ 0 then .error .unsupportedFlag
  else
    let uname := goToUpper name
    if optionExists reg uname then .error .duplicateOption
    else .ok { reg with
      float_map := ainsert reg.float_map uname target,
      option_flags := ainsert reg.option_flags uname (flags ||| FLOAT) }

/-- Source function `AddBool` (it takes no flag argument). -/
def AddBool (reg : Registry) (target : Bool) (name : String) :
    Except Err Registry :=
  let uname := goToUpper name
  if optionExists reg uname then .error .duplicateOption
  else .ok { reg with
    bool_map := ainsert reg.bool_map uname target,
    option_flags := ainsert reg.option_flags uname BOOL }

/-- Numeric value of a digit list, most significant first. -/
def digitsToNat (l : List Char) : Nat :=
  l.foldl (fun a c => 10 * a + (c.toNat - 48)) 0

/-- Model of Go `strconv.Atoi`: optional sign, one or more ASCII digits,
value must fit in a 64-bit `int`; anything else is an error (`none`). -/
def goAtoi (l : List Char) : Option Int :=
  match l with
  | [] => none
  | c :: rest =>
    let p : Bool × List Char :=
      if c = '-' then (true, rest)
      else if c = '+' then (false, rest) else (false, l)
    if p.2 = [] then none
    else if p.2.all isDigitC then
      let v : Int := if p.1 then -(digitsToNat p.2 : Int) else (digitsToNat p.2 : Int)
      if -(2 ^ 63) ≤ v ∧ v < 2 ^ 63 then some v else none
    else none

/-- Leftmost-first, greedy match of the regex `\d+` (source variable
`uint_token`): the first maximal run of digits, if any. -/
def findUintToken : List Char → Option (List Char)
  | [] => none
  | c :: t =>
    if isDigitC c then some ((c :: t).takeWhile isDigitC)
    else findUintToken t

/-- Does the list start with an ASCII digit. -/
def headDigit : List Char → Bool
  | d :: _ => isDigitC d
  | [] => false

/-- Leftmost-first, greedy match of the regex `-?\d+` (source variable
`int_token`): at each position a digit run matches, and a `-`
immediately followed by a digit matches with the sign; the scan takes
the leftmost position that matches. -/
def findIntToken : List Char → Option (List Char)
  | [] => none
  | c :: t =>
    if isDigitC c then some ((c :: t).takeWhile isDigitC)
    else if c = '-' && headDigit t then some ('-' :: t.takeWhile isDigitC)
    else findIntToken t

/-- Is `c` in the character class `[0-9.]` of the float token regexes. -/
def isFloatC (c : Char) : Bool := isDigitC c || c = '.'

/-- Leftmost-first, greedy match of the regex `[0-9.]+` (source variable
`ufloat_token`). -/
def findUfloatToken : List Char → Option (List Char)
  | [] => none
  | c :: t =>
    if isFloatC c then some ((c :: t).takeWhile isFloatC)
    else findUfloatToken t

/-- Does the list start with a character of the class `[0-9.]`. -/
def headFloatC : List Char → Bool
  | d :: _ => isFloatC d
  | [] => false

/-- Leftmost-first, greedy match of the regex `-?[0-9.]+` (source
variable `float_token`). -/
def findFloatToken : List Char → Option (List Char)
  | [] => none
  | c :: t =>
    if isFloatC c then some ((c :: t).takeWhile isFloatC)
    else if c = '-' && headFloatC t then some ('-' :: t.takeWhile isFloatC)
    else findFloatToken t

/-- Syntactic acceptance of Go `strconv.ParseFloat` on the `[0-9.-]`
fragment the float tokens can produce: an optional sign, then at least
one digit and at most one decimal point.  (Numeric range is not
modelled; no claim depends on it.) -/
def goParseFloatOk (l : List Char) : Bool :=
  let body := match l with
    | '-' :: t => t
    | '+' :: t => t
    | t => t
  body ≠ [] && body.all isFloatC && body.any isDigitC &&
    (body.filter (fun c => c = '.')).length ≤ 1

/-- Source function `setOption`.  The outer `Option` models a Go panic:
`none` is returned exactly when the branch taken dereferences a map
entry that is absent (a nil pointer).  Otherwise the result is the
updated registry together with the per-line error, if any; on a per-line
error the registry is returned unchanged.  The `verbose` argument only
controls diagnostic printing in the source and has no modelled effect. -/
def setOption (reg : Registry) (name value : String) (verbose : Bool) :
    Option (Registry × Option Err) :=
  let _ := verbose
  let uname := goToUpper name
  match alookup reg.option_flags uname with
  | none => some (reg, some .unrecognizedOption)
  | some flags =>
    if hasAttr flags STRING then
      let v1 := if hasAttr flags STRIP then goTrimSpace value else value
      let v2 := if hasAttr flags LOWER then goToLower v1
                else if hasAttr flags UPPER then goToUpper v1 else v1
      match alookup reg.str_map uname with
      | none => none
      | some _ => some ({ reg with str_map := aset reg.str_map uname v2 }, none)
    else if hasAttr flags INT then
      let tok := if hasAttr flags UNSIGNED then (findUintToken value.data).getD []
                 else (findIntToken value.data).getD []
      match goAtoi tok with
      | none => some (reg, some .coercionFailure)
      | some iv =>
        match alookup reg.int_map uname with
        | none => none
        | some _ => some ({ reg with int_map := aset reg.int_map uname iv }, none)
    else if hasAttr flags FLOAT then
      let tok := if hasAttr flags UNSIGNED then (findUfloatToken value.data).getD []
                 else (findFloatToken value.data).getD []
      if goParseFloatOk tok then
        match alookup reg.float_map uname with
        | none => none
        | some _ =>
          some ({ reg with float_map := aset reg.float_map uname (String.mk tok) },
                none)
      else some (reg, some .coercionFailure)
    else if hasAttr flags BOOL then
      let v := goToLower (goTrimSpace value)
      if boolean_trues.contains v then
        match alookup reg.bool_map uname with
        | none => none
        | some _ => some ({ reg with bool_map := aset reg.bool_map uname true }, none)
      else if boolean_falses.contains v then
        match alookup reg.bool_map uname with
        | none => none
        | some _ => some ({ reg with bool_map := aset reg.bool_map uname false }, none)
      else some (reg, some .coercionFailure)
    else some (reg, some .logicalError)

/-- Match of the source regex `comment_re`, `^\s*#`: the first character
after the maximal leading whitespace run is `#`.  (Shorter whitespace
runs need not be tried: the character they stop at is whitespace, not
`#`.) -/
def commentRe (line : String) : Bool :=
  match line.data.dropWhile goRegexSpace with
  | c :: _ => c = '#'
  | [] => false

/-- Match of the source regex `nonblank_re`, `\S`: some character is not
whitespace. -/
def nonblankRe (line : String) : Bool :=
  line.data.any (fun c => !goRegexSpace c)

/-- Split a line at the first `:` or `=`: the separator-free prefix, the
separator, and the rest. -/
def splitSep : List Char → Option (List Char × Char × List Char)
  | [] => none
  | c :: t =>
    if c = ':' || c = '=' then some ([], c, t)
    else (splitSep t).map (fun p => (c :: p.1, p.2.1, p.2.2))

/-- Submatch of the source regex `option_re`, `^\s*([^:=]+)=(.*)$`,
under Go's leftmost-first greedy semantics.  The pattern matches exactly
when the first `:`-or-`=` of the line is a `=` at a position `i ≥ 1`.
The greedy `\s*` first takes the maximal whitespace prefix `w`; when
`w < i` the key submatch is the line from `w` to `i`; when the whole
prefix before the `=` is whitespace, `\s*` backtracks one character so
that `[^:=]+` can match, making the key the single character at `i - 1`.
The value submatch is everything after the `=`. -/
def optionMatch (line : String) : Option (String × String) :=
  match splitSep line.data with
  | none => none
  | some (pre, c, post) =>
    if c = '=' && pre ≠ [] then
      let ws := (pre.takeWhile goRegexSpace).length
      let j := min ws (pre.length - 1)
      some (String.mk (pre.drop j), String.mk post)
    else none

/-- The classification Configure applies to each physical line, in
source order: comment, then blank, then `key=value`, else malformed. -/
inductive LineClass : Type where
  | comment : LineClass
  | blank : LineClass
  | entry : String → String → LineClass
  | malformed : LineClass
deriving DecidableEq, Repr

/-- Line classification as performed by the scan loop of `Configure`. -/
def lineClass (line : String) : LineClass :=
  if commentRe line then .comment
  else if !nonblankRe line then .blank
  else match optionMatch line with
    | none => .malformed
    | some (k, v) => .entry k v

/-- One iteration of the scan loop of `Configure`: comments, blanks and
malformed lines are skipped; an entry goes to `setOption`, whose
per-line error is dropped.  `none` propagates a modelled panic. -/
def processLine (reg : Registry) (line : String) (verbose : Bool) :
    Option Registry :=
  match lineClass line with
  | .comment => some reg
  | .blank => some reg
  | .malformed => some reg
  | .entry k v => (setOption reg k v verbose).map (fun r => r.1)

/-- The whole scan loop of `Configure` over the file's lines. -/
def processLines (reg : Registry) : List String → Bool → Option Registry
  | [], _ => some reg
  | l :: ls, verbose =>
    match processLine reg l verbose with
    | none => none
    | some r => processLines r ls verbose

/-- A filesystem for `Configure`: a path is associated with whether the
file can be opened and with its lines.  A path not in the list does not
exist. -/
abbrev FS : Type := List (String × Bool × List String)

/-- Model of the `os.Stat` existence test of `Configure`. -/
def statExists (fs : FS) (p : String) : Bool := (alookup fs p).isSome

/-- The file-discovery loop of `Configure`: `cfg_file` keeps its zero
value `""` until the first existing candidate is found. -/
def findCfg (fs : FS) : List String → String
  | [] => ""
  | f :: rest => if statExists fs f then f else findCfg fs rest

/-- Source function `Configure`.  The outer `Option` models a Go panic
escaping from `setOption`; otherwise the result is the error `Configure`
returns, or the registry after the scan. -/
def Configure (fs : FS) (files : List String) (reg : Registry)
    (verbose : Bool) : Option (Except Err Registry) :=
  let cfg_file := findCfg fs files
  if cfg_file = "" then some (.error .noConfigFileFound)
  else
    match alookup fs cfg_file with
    | none => some (.error .fileOpenError)
    | some (openable, lines) =>
      if !openable then some (.error .fileOpenError)
      else (processLines reg lines verbose).map .ok

theorem char_toNat_ofNat (n : Nat) (h : n.isValidChar) :
    (Char.ofNat n).toNat = n := by
  simp only [Char.ofNat, dif_pos h]
  rfl

theorem lowAZ_iff (c : Char) : lowAZ c = true ↔ 97 ≤ c.toNat ∧ c.toNat ≤ 122 := by
  simp [lowAZ, Char.le_def, Char.toNat]
  rfl

theorem goUpChar_idem (c : Char) : goUpChar (goUpChar c) = goUpChar c := by
  unfold goUpChar
  by_cases h : lowAZ c = true
  · simp only [h, if_true]
    have hr : 97 ≤ c.toNat ∧ c.toNat ≤ 122 := (lowAZ_iff c).mp h
    have hv : (c.toNat - 32).isValidChar := Or.inl (by omega)
    have ht : (Char.ofNat (c.toNat - 32)).toNat = c.toNat - 32 :=
      char_toNat_ofNat _ hv
    have hlow : lowAZ (Char.ofNat (c.toNat - 32)) = false := by
      rw [Bool.eq_false_iff]
      intro hc
      rw [lowAZ_iff] at hc
      omega
    simp [hlow]
  · simp [h]

theorem goToUpper_idem (s : String) : goToUpper (goToUpper s) = goToUpper s := by
  unfold goToUpper
  simp only [List.map_map]
  congr 1
  apply List.map_congr_left
  intro c _
  exact goUpChar_idem c

theorem nat_lor_land (a b c : Nat) : (a ||| b) &&& c = (a &&& c) ||| (b &&& c) := by
  apply Nat.eq_of_testBit_eq
  intro i
  simp [Nat.testBit_land, Nat.testBit_lor, Bool.and_or_distrib_right]

theorem small_flags_hi (flags : Nat) (h : flags < 16) :
    flags &&& 128 = 0 ∧ flags &&& 64 = 0 ∧ flags &&& 32 = 0 ∧ flags &&& 16 = 0 := by
  interval_cases flags <;> decide

/-- The coherence invariant relating `option_flags` to the four target
maps: a name in no map has no flag entry, and a name with a flag entry
lives in exactly the map `setOption`'s bit cascade dispatches to. -/
def Coherent (reg : Registry) : Prop :=
  ∀ k : String,
    (alookup reg.option_flags k = none →
      alookup reg.str_map k = none ∧ alookup reg.int_map k = none ∧
      alookup reg.float_map k = none ∧ alookup reg.bool_map k = none) ∧
    ∀ fl, alookup reg.option_flags k = some fl →
      (hasAttr fl STRING = true ∧ (alookup reg.str_map k).isSome = true ∧
        alookup reg.int_map k = none ∧ alookup reg.float_map k = none ∧
        alookup reg.bool_map k = none) ∨
      (hasAttr fl STRING = false ∧ hasAttr fl INT = true ∧
        (alookup reg.int_map k).isSome = true ∧ alookup reg.str_map k = none ∧
        alookup reg.float_map k = none ∧ alookup reg.bool_map k = none) ∨
      (hasAttr fl STRING = false ∧ hasAttr fl INT = false ∧
        hasAttr fl FLOAT = true ∧ (alookup reg.float_map k).isSome = true ∧
        alookup reg.str_map k = none ∧ alookup reg.int_map k = none ∧
        alookup reg.bool_map k = none) ∨
      (hasAttr fl STRING = false ∧ hasAttr fl INT = false ∧
        hasAttr fl FLOAT = false ∧ hasAttr fl BOOL = true ∧
        (alookup reg.bool_map k).isSome = true ∧ alookup reg.str_map k = none ∧
        alookup reg.int_map k = none ∧ alookup reg.float_map k = none)

/-- Registry states reachable through `Reset` and successful `AddX`
calls whose flag arguments are combinations of `NONE`, `STRIP`, `UPPER`,
`LOWER`, `UNSIGNED` only (equivalently, `flags < 16`). -/
inductive GoodReach : Registry → Prop where
  | reset : GoodReach Reset
  | addString : ∀ reg reg' t n fl, GoodReach reg → fl < 16 →
      AddString reg t n fl = .ok reg' → GoodReach reg'
  | addInt : ∀ reg reg' t n fl, GoodReach reg → fl < 16 →
      AddInt reg t n fl = .ok reg' → GoodReach reg'
  | addFloat : ∀ reg reg' t n fl, GoodReach reg → fl < 16 →
      AddFloat reg t n fl = .ok reg' → GoodReach reg'
  | addBool : ∀ reg reg' t n, GoodReach reg →
      AddBool reg t n = .ok reg' → GoodReach reg'

theorem optionExists_false_lookups (reg : Registry) (n : String)
    (h : optionExists reg n = false) :
    alookup reg.str_map (goToUpper n) = none ∧
    alookup reg.int_map (goToUpper n) = none ∧
    alookup reg.float_map (goToUpper n) = none ∧
    alookup reg.bool_map (goToUpper n) = none := by
  unfold optionExists OptionType at h
  by_cases h1 : (alookup reg.str_map (goToUpper n)).isSome
  · simp [h1, STRING, NONE] at h
  · by_cases h2 : (alookup reg.int_map (goToUpper n)).isSome
    · simp [h1, h2, INT, NONE] at h
    · by_cases h3 : (alookup reg.float_map (goToUpper n)).isSome
      · simp [h1, h2, h3, FLOAT, NONE] at h
      · by_cases h4 : (alookup reg.bool_map (goToUpper n)).isSome
        · simp [h1, h2, h3, h4, BOOL, NONE] at h
        · exact ⟨Option.not_isSome_iff_eq_none.mp h1,
            Option.not_isSome_iff_eq_none.mp h2,
            Option.not_isSome_iff_eq_none.mp h3,
            Option.not_isSome_iff_eq_none.mp h4⟩

theorem hasAttr_false_of (fl c : Nat) (h : fl &&& c = 0) : hasAttr fl c = false := by
  simp [hasAttr, h]

theorem hasAttr_true_of (fl c : Nat) (h : fl &&& c ≠ 0) : hasAttr fl c = true := by
  simp [hasAttr, h]

theorem union_land (fl a c b : Nat) (h1 : fl &&& c = 0) (h2 : a &&& c = b) :
    (fl ||| a) &&& c = b := by
  rw [nat_lor_land, h1, h2, Nat.zero_or]

theorem lor_ne_zero_right (a b : Nat) (hb : b ≠ 0) : a ||| b ≠ 0 := by
  intro hz
  apply hb
  apply Nat.eq_of_testBit_eq
  intro i
  have h2 := congrArg (fun m => m.testBit i) hz
  simp [Nat.testBit_lor] at h2
  simp [h2.2]

theorem coherent_reset : Coherent Reset := by
  intro k
  constructor
  · intro _
    exact ⟨rfl, rfl, rfl, rfl⟩
  · intro fl hfl
    simp [Reset, alookup] at hfl

theorem coherent_addInt (reg reg' : Registry) (t : Int) (n : String) (fl : Nat)
    (hfl : fl < 16) (hc : Coherent reg) (h : AddInt reg t n fl = .ok reg') :
    Coherent reg' := by
  unfold AddInt at h
  by_cases hflag : fl &&& disallowed_int_opts ≠ 0
  · simp [hflag] at h
  · simp only [hflag, if_false, if_neg] at h
    by_cases hex : optionExists reg (goToUpper n) = true
    · simp [hex] at h
    · rw [Bool.not_eq_true] at hex
      simp only [hex, Bool.false_eq_true, if_false] at h
      have hlk := optionExists_false_lookups reg (goToUpper n) hex
      rw [goToUpper_idem] at hlk
      obtain ⟨hs, hi, hf, hb⟩ := hlk
      have hr : reg' = { reg with
          int_map := ainsert reg.int_map (goToUpper n) t,
          option_flags := ainsert reg.option_flags (goToUpper n) (fl ||| INT) } := by
        cases h
        rfl
      subst hr
      intro k
      by_cases hk : k = goToUpper n
      · subst hk
        constructor
        · intro hnone
          rw [alookup_ainsert] at hnone
          simp at hnone
        · intro fl' hfl'
          rw [alookup_ainsert] at hfl'
          simp at hfl'
          right; left
          refine ⟨?_, ?_, ?_, ?_, ?_, ?_⟩
          · apply hasAttr_false_of
            rw [← hfl']
            exact union_land fl INT STRING 0 (small_flags_hi fl hfl).1 (by decide)
          · apply hasAttr_true_of
            rw [← hfl', nat_lor_land]
            apply lor_ne_zero_right
            decide
          · rw [alookup_ainsert]
            simp
          · exact hs
          · exact hf
          · exact hb
      · have hk' : ¬(k = goToUpper n) := hk
        constructor
        · intro hnone
          rw [alookup_ainsert, if_neg hk'] at hnone
          have := (hc k).1 hnone
          rw [alookup_ainsert, if_neg hk']
          exact this
        · intro fl' hfl'
          rw [alookup_ainsert, if_neg hk'] at hfl'
          have := (hc k).2 fl' hfl'
          rw [alookup_ainsert, if_neg hk']
          simpa [alookup_ainsert, if_neg hk'] using this

theorem coherent_addString (reg reg' : Registry) (t : String) (n : String)
    (fl : Nat) (hfl : fl < 16) (hc : Coherent reg)
    (h : AddString reg t n fl = .ok reg') : Coherent reg' := by
  unfold AddString at h
  by_cases hflag : fl &&& disallowed_str_opts ≠ 0
  · simp [hflag] at h
  · simp only [hflag, if_false, if_neg] at h
    by_cases hex : optionExists reg (goToUpper n) = true
    · simp [hex] at h
    · rw [Bool.not_eq_true] at hex
      simp only [hex, Bool.false_eq_true, if_false] at h
      have hlk := optionExists_false_lookups reg (goToUpper n) hex
      rw [goToUpper_idem] at hlk
      obtain ⟨hs, hi, hf, hb⟩ := hlk
      have hr : reg' = { reg with
          str_map := ainsert reg.str_map (goToUpper n) t,
          option_flags := ainsert reg.option_flags (goToUpper n) (fl ||| STRING) } := by
        cases h
        rfl
      subst hr
      intro k
      by_cases hk : k = goToUpper n
      · subst hk
        constructor
        · intro hnone
          rw [alookup_ainsert] at hnone
          simp at hnone
        · intro fl' hfl'
          rw [alookup_ainsert] at hfl'
          simp at hfl'
          left
          refine ⟨?_, ?_, ?_, ?_, ?_⟩
          · apply hasAttr_true_of
            rw [← hfl', nat_lor_land]
            apply lor_ne_zero_right
            decide
          · rw [alookup_ainsert]
            simp
          · exact hi
          · exact hf
          · exact hb
      · have hk' : ¬(k = goToUpper n) := hk
        constructor
        · intro hnone
          rw [alookup_ainsert, if_neg hk'] at hnone
          have := (hc k).1 hnone
          rw [alookup_ainsert, if_neg hk']
          exact this
        · intro fl' hfl'
          rw [alookup_ainsert, if_neg hk'] at hfl'
          have := (hc k).2 fl' hfl'
          rw [alookup_ainsert, if_neg hk']
          simpa [alookup_ainsert, if_neg hk'] using this

theorem coherent_addFloat (reg reg' : Registry) (t : String) (n : String)
    (fl : Nat) (hfl : fl < 16) (hc : Coherent reg)
    (h : AddFloat reg t n fl = .ok reg') : Coherent reg' := by
  unfold AddFloat at h
  by_cases hflag : fl &&& disallowed_float_opts ≠ 0
  · simp [hflag] at h
  · simp only [hflag, if_false, if_neg] at h
    by_cases hex : optionExists reg (goToUpper n) = true
    · simp [hex] at h
    · rw [Bool.not_eq_true] at hex
      simp only [hex, Bool.false_eq_true, if_false] at h
      have hlk := optionExists_false_lookups reg (goToUpper n) hex
      rw [goToUpper_idem] at hlk
      obtain ⟨hs, hi, hf, hb⟩ := hlk
      have hr : reg' = { reg with
          float_map := ainsert reg.float_map (goToUpper n) t,
          option_flags := ainsert reg.option_flags (goToUpper n) (fl ||| FLOAT) } := by
        cases h
        rfl
      subst hr
      intro k
      by_cases hk : k = goToUpper n
      · subst hk
        constructor
        · intro hnone
          rw [alookup_ainsert] at hnone
          simp at hnone
        · intro fl' hfl'
          rw [alookup_ainsert] at hfl'
          simp at hfl'
          right; right; left
          refine ⟨?_, ?_, ?_, ?_, ?_, ?_, ?_⟩
          · apply hasAttr_false_of
            rw [← hfl']
            exact union_land fl FLOAT STRING 0 (small_flags_hi fl hfl).1 (by decide)
          · apply hasAttr_false_of
            rw [← hfl']
            exact union_land fl FLOAT INT 0 (small_flags_hi fl hfl).2.1 (by decide)
          · apply hasAttr_true_of
            rw [← hfl', nat_lor_land]
            apply lor_ne_zero_right
            decide
          · rw [alookup_ainsert]
            simp
          · exact hs
          · exact hi
          · exact hb
      · have hk' : ¬(k = goToUpper n) := hk
        constructor
        · intro hnone
          rw [alookup_ainsert, if_neg hk'] at hnone
          have := (hc k).1 hnone
          rw [alookup_ainsert, if_neg hk']
          exact this
        · intro fl' hfl'
          rw [alookup_ainsert, if_neg hk'] at hfl'
          have := (hc k).2 fl' hfl'
          rw [alookup_ainsert, if_neg hk']
          simpa [alookup_ainsert, if_neg hk'] using this

theorem coherent_addBool (reg reg' : Registry) (t : Bool) (n : String)
    (hc : Coherent reg) (h : AddBool reg t n = .ok reg') : Coherent reg' := by
  unfold AddBool at h
  by_cases hex : optionExists reg (goToUpper n) = true
  · simp [hex] at h
  · rw [Bool.not_eq_true] at hex
    simp only [hex, Bool.false_eq_true, if_false] at h
    have hlk := optionExists_false_lookups reg (goToUpper n) hex
    rw [goToUpper_idem] at hlk
    obtain ⟨hs, hi, hf, hb⟩ := hlk
    have hr : reg' = { reg with
        bool_map := ainsert reg.bool_map (goToUpper n) t,
        option_flags := ainsert reg.option_flags (goToUpper n) BOOL } := by
      cases h
      rfl
    subst hr
    intro k
    by_cases hk : k = goToUpper n
    · subst hk
      constructor
      · intro hnone
        rw [alookup_ainsert] at hnone
        simp at hnone
      · intro fl' hfl'
        rw [alookup_ainsert] at hfl'
        simp at hfl'
        right; right; right
        refine ⟨?_, ?_, ?_, ?_, ?_, ?_, ?_, ?_⟩
        · rw [← hfl']
          decide
        · rw [← hfl']
          decide
        · rw [← hfl']
          decide
        · rw [← hfl']
          decide
        · rw [alookup_ainsert]
          simp
        · exact hs
        · exact hi
        · exact hf
    · have hk' : ¬(k = goToUpper n) := hk
      constructor
      · intro hnone
        rw [alookup_ainsert, if_neg hk'] at hnone
        have := (hc k).1 hnone
        rw [alookup_ainsert, if_neg hk']
        exact this
      · intro fl' hfl'
        rw [alookup_ainsert, if_neg hk'] at hfl'
        have := (hc k).2 fl' hfl'
        rw [alookup_ainsert, if_neg hk']
        simpa [alookup_ainsert, if_neg hk'] using this

theorem goodReach_coherent (reg : Registry) (h : GoodReach reg) : Coherent reg := by
  induction h with
  | reset => exact coherent_reset
  | addString reg reg' t n fl _ hfl hok ih => exact coherent_addString reg reg' t n fl hfl ih hok
  | addInt reg reg' t n fl _ hfl hok ih => exact coherent_addInt reg reg' t n fl hfl ih hok
  | addFloat reg reg' t n fl _ hfl hok ih => exact coherent_addFloat reg reg' t n fl hfl ih hok
  | addBool reg reg' t n _ hok ih => exact coherent_addBool reg reg' t n ih hok

theorem setOption_result (reg : Registry) (n v : String) (b : Bool)
    (r : Registry) (e : Option Err) (h : setOption reg n v b = some (r, e)) :
    r.option_flags = reg.option_flags ∧
    (∀ k, (alookup r.str_map k).isSome = (alookup reg.str_map k).isSome) ∧
    (∀ k, (alookup r.int_map k).isSome = (alookup reg.int_map k).isSome) ∧
    (∀ k, (alookup r.float_map k).isSome = (alookup reg.float_map k).isSome) ∧
    (∀ k, (alookup r.bool_map k).isSome = (alookup reg.bool_map k).isSome) ∧
    (e.isSome → r = reg) := by
  simp only [setOption] at h
  repeat' split at h
  all_goals
    first
    | exact Option.noConfusion h
    | (simp only [Option.some.injEq, Prod.mk.injEq] at h
       obtain ⟨h1, h2⟩ := h
       subst h1
       subst h2
       refine ⟨rfl, fun k => ?_, fun k => ?_, fun k => ?_, fun k => ?_,
         fun he => ?_⟩ <;>
         first
         | rfl
         | simp [alookup_aset_isSome]
         | exact absurd he (by simp))

theorem eq_none_of_isSome_eq {α β : Type} (a : Option α) (b : Option β)
    (h : a.isSome = b.isSome) (hb : b = none) : a = none := by
  subst hb
  cases a with
  | none => rfl
  | some w => simp at h

theorem coherent_transfer (reg r : Registry)
    (hf : r.option_flags = reg.option_flags)
    (hs : ∀ k, (alookup r.str_map k).isSome = (alookup reg.str_map k).isSome)
    (hi : ∀ k, (alookup r.int_map k).isSome = (alookup reg.int_map k).isSome)
    (hfl : ∀ k, (alookup r.float_map k).isSome = (alookup reg.float_map k).isSome)
    (hb : ∀ k, (alookup r.bool_map k).isSome = (alookup reg.bool_map k).isSome)
    (hc : Coherent reg) : Coherent r := by
  intro k
  constructor
  · intro hnone
    rw [hf] at hnone
    obtain ⟨h1, h2, h3, h4⟩ := (hc k).1 hnone
    exact ⟨eq_none_of_isSome_eq _ _ (hs k) h1, eq_none_of_isSome_eq _ _ (hi k) h2,
      eq_none_of_isSome_eq _ _ (hfl k) h3, eq_none_of_isSome_eq _ _ (hb k) h4⟩
  · intro fl hflk
    rw [hf] at hflk
    rcases (hc k).2 fl hflk with h1 | h2 | h3 | h4
    · obtain ⟨a1, a2, a3, a4, a5⟩ := h1
      exact Or.inl ⟨a1, by rw [hs k]; exact a2,
        eq_none_of_isSome_eq _ _ (hi k) a3, eq_none_of_isSome_eq _ _ (hfl k) a4,
        eq_none_of_isSome_eq _ _ (hb k) a5⟩
    · obtain ⟨a1, a2, a3, a4, a5, a6⟩ := h2
      exact Or.inr (Or.inl ⟨a1, a2, by rw [hi k]; exact a3,
        eq_none_of_isSome_eq _ _ (hs k) a4, eq_none_of_isSome_eq _ _ (hfl k) a5,
        eq_none_of_isSome_eq _ _ (hb k) a6⟩)
    · obtain ⟨a1, a2, a3, a4, a5, a6, a7⟩ := h3
      exact Or.inr (Or.inr (Or.inl ⟨a1, a2, a3, by rw [hfl k]; exact a4,
        eq_none_of_isSome_eq _ _ (hs k) a5, eq_none_of_isSome_eq _ _ (hi k) a6,
        eq_none_of_isSome_eq _ _ (hb k) a7⟩))
    · obtain ⟨a1, a2, a3, a4, a5, a6, a7, a8⟩ := h4
      exact Or.inr (Or.inr (Or.inr ⟨a1, a2, a3, a4, by rw [hb k]; exact a5,
        eq_none_of_isSome_eq _ _ (hs k) a6, eq_none_of_isSome_eq _ _ (hi k) a7,
        eq_none_of_isSome_eq _ _ (hfl k) a8⟩))

theorem setOption_coherent (reg : Registry) (n v : String) (b : Bool)
    (r : Registry) (e : Option Err) (h : setOption reg n v b = some (r, e))
    (hc : Coherent reg) : Coherent r := by
  obtain ⟨h1, h2, h3, h4, h5, _⟩ := setOption_result reg n v b r e h
  exact coherent_transfer reg r h1 h2 h3 h4 h5 hc

theorem setOption_isSome (reg : Registry) (n v : String) (b : Bool)
    (hc : Coherent reg) : (setOption reg n v b).isSome = true := by
  simp only [setOption]
  cases hlk : alookup reg.option_flags (goToUpper n) with
  | none => simp
  | some fl =>
    rcases (hc (goToUpper n)).2 fl hlk with h1 | h2 | h3 | h4
    · obtain ⟨hS, hp, _⟩ := h1
      obtain ⟨w, hw⟩ := Option.isSome_iff_exists.mp hp
      simp [hS, hw]
    · obtain ⟨hS, hI, hp, _⟩ := h2
      obtain ⟨w, hw⟩ := Option.isSome_iff_exists.mp hp
      cases hA : goAtoi (if hasAttr fl UNSIGNED = true then
          (findUintToken v.data).getD [] else (findIntToken v.data).getD []) with
      | none => simp [hS, hI, hA]
      | some iv => simp [hS, hI, hA, hw]
    · obtain ⟨hS, hI, hF, hp, _⟩ := h3
      obtain ⟨w, hw⟩ := Option.isSome_iff_exists.mp hp
      cases hPF : goParseFloatOk (if hasAttr fl UNSIGNED = true then
          (findUfloatToken v.data).getD [] else (findFloatToken v.data).getD []) with
      | false => simp [hS, hI, hF, hPF]
      | true => simp [hS, hI, hF, hPF, hw]
    · obtain ⟨hS, hI, hF, hB, hp, _⟩ := h4
      obtain ⟨w, hw⟩ := Option.isSome_iff_exists.mp hp
      cases ht : boolean_trues.contains (goToLower (goTrimSpace v)) with
      | true => simp [hS, hI, hF, hB, ht, hw]
      | false =>
        cases hfa : boolean_falses.contains (goToLower (goTrimSpace v)) with
        | true => simp [hS, hI, hF, hB, ht, hfa, hw]
        | false => simp [hS, hI, hF, hB, ht, hfa]

theorem setOption_logicalError (reg : Registry) (n v : String) (b : Bool)
    (r : Registry) (h : setOption reg n v b = some (r, some Err.logicalError)) :
    ∃ fl, alookup reg.option_flags (goToUpper n) = some fl ∧
      hasAttr fl STRING = false ∧ hasAttr fl INT = false ∧
      hasAttr fl FLOAT = false ∧ hasAttr fl BOOL = false := by
  simp only [setOption] at h
  repeat' split at h
  all_goals
    first
    | exact Option.noConfusion h
    | (simp only [Option.some.injEq, Prod.mk.injEq] at h
       first
       | exact Option.noConfusion h.2
       | exact Err.noConfusion h.2
       | exact Err.noConfusion (Option.some.inj h.2)
       | exact ⟨_, by assumption, by simp_all, by simp_all, by simp_all,
           by simp_all⟩)

theorem processLine_result (reg : Registry) (l : String) (b : Bool)
    (r : Registry) (h : processLine reg l b = some r) :
    r.option_flags = reg.option_flags ∧
    (∀ k, (alookup r.str_map k).isSome = (alookup reg.str_map k).isSome) ∧
    (∀ k, (alookup r.int_map k).isSome = (alookup reg.int_map k).isSome) ∧
    (∀ k, (alookup r.float_map k).isSome = (alookup reg.float_map k).isSome) ∧
    (∀ k, (alookup r.bool_map k).isSome = (alookup reg.bool_map k).isSome) := by
  unfold processLine at h
  cases hclass : lineClass l with
  | comment =>
    rw [hclass] at h
    cases h
    exact ⟨rfl, fun _ => rfl, fun _ => rfl, fun _ => rfl, fun _ => rfl⟩
  | blank =>
    rw [hclass] at h
    cases h
    exact ⟨rfl, fun _ => rfl, fun _ => rfl, fun _ => rfl, fun _ => rfl⟩
  | malformed =>
    rw [hclass] at h
    cases h
    exact ⟨rfl, fun _ => rfl, fun _ => rfl, fun _ => rfl, fun _ => rfl⟩
  | entry k v =>
    rw [hclass] at h
    replace h : Option.map (fun p => p.1) (setOption reg k v b) = some r := h
    cases hso : setOption reg k v b with
    | none => rw [hso] at h; cases h
    | some p =>
      obtain ⟨r0, e0⟩ := p
      rw [hso] at h
      simp at h
      subst h
      obtain ⟨a1, a2, a3, a4, a5, _⟩ := setOption_result reg k v b r0 e0 hso
      exact ⟨a1, a2, a3, a4, a5⟩

theorem processLine_total (reg : Registry) (l : String) (b : Bool)
    (hc : Coherent reg) :
    ∃ r, processLine reg l b = some r ∧ Coherent r := by
  unfold processLine
  cases hclass : lineClass l with
  | comment => exact ⟨reg, rfl, hc⟩
  | blank => exact ⟨reg, rfl, hc⟩
  | malformed => exact ⟨reg, rfl, hc⟩
  | entry k v =>
    have hs := setOption_isSome reg k v b hc
    obtain ⟨p, hp⟩ := Option.isSome_iff_exists.mp hs
    obtain ⟨r0, e0⟩ := p
    refine ⟨r0, ?_, ?_⟩
    · show Option.map (fun p => p.1) (setOption reg k v b) = some r0
      rw [hp]
      rfl
    · exact setOption_coherent reg k v b r0 e0 hp hc

theorem processLines_total (ls : List String) (reg : Registry) (b : Bool)
    (hc : Coherent reg) :
    ∃ r, processLines reg ls b = some r ∧ Coherent r := by
  induction ls generalizing reg with
  | nil => exact ⟨reg, rfl, hc⟩
  | cons l t ih =>
    obtain ⟨r0, hr0, hc0⟩ := processLine_total reg l b hc
    obtain ⟨r1, hr1, hc1⟩ := ih r0 hc0
    refine ⟨r1, ?_, hc1⟩
    unfold processLines
    rw [hr0]
    exact hr1

theorem processLines_result (ls : List String) (reg : Registry) (b : Bool)
    (r : Registry) (h : processLines reg ls b = some r) :
    r.option_flags = reg.option_flags ∧
    (∀ k, (alookup r.str_map k).isSome = (alookup reg.str_map k).isSome) ∧
    (∀ k, (alookup r.int_map k).isSome = (alookup reg.int_map k).isSome) ∧
    (∀ k, (alookup r.float_map k).isSome = (alookup reg.float_map k).isSome) ∧
    (∀ k, (alookup r.bool_map k).isSome = (alookup reg.bool_map k).isSome) := by
  induction ls generalizing reg with
  | nil =>
    cases h
    exact ⟨rfl, fun _ => rfl, fun _ => rfl, fun _ => rfl, fun _ => rfl⟩
  | cons l t ih =>
    unfold processLines at h
    cases hpl : processLine reg l b with
    | none => rw [hpl] at h; cases h
    | some r0 =>
      rw [hpl] at h
      obtain ⟨a1, a2, a3, a4, a5⟩ := processLine_result reg l b r0 hpl
      obtain ⟨b1, b2, b3, b4, b5⟩ := ih r0 h
      exact ⟨b1.trans a1, fun k => (b2 k).trans (a2 k),
        fun k => (b3 k).trans (a3 k), fun k => (b4 k).trans (a4 k),
        fun k => (b5 k).trans (a5 k)⟩

/-- The write a single scanned line performs, if any, as determined by
the flag map alone (the write's value never depends on current target
values). -/
inductive Upd : Type where
  | ustr : String → String → Upd
  | uint : String → Int → Upd
  | uflt : String → String → Upd
  | ubool : String → Bool → Upd
deriving DecidableEq, Repr

/-- Compute the write a line would perform, from the flag map alone. -/
def lineUpdate (fm : List (String × Nat)) (line : String) : Option Upd :=
  match lineClass line with
  | .comment => none
  | .blank => none
  | .malformed => none
  | .entry k v =>
    match alookup fm (goToUpper k) with
    | none => none
    | some flags =>
      if hasAttr flags STRING then
        let v1 := if hasAttr flags STRIP then goTrimSpace v else v
        let v2 := if hasAttr flags LOWER then goToLower v1
                  else if hasAttr flags UPPER then goToUpper v1 else v1
        some (.ustr (goToUpper k) v2)
      else if hasAttr flags INT then
        let tok := if hasAttr flags UNSIGNED then (findUintToken v.data).getD []
                   else (findIntToken v.data).getD []
        match goAtoi tok with
        | none => none
        | some iv => some (.uint (goToUpper k) iv)
      else if hasAttr flags FLOAT then
        let tok := if hasAttr flags UNSIGNED then (findUfloatToken v.data).getD []
                   else (findFloatToken v.data).getD []
        if goParseFloatOk tok then some (.uflt (goToUpper k) (String.mk tok))
        else none
      else if hasAttr flags BOOL then
        let w := goToLower (goTrimSpace v)
        if boolean_trues.contains w then some (.ubool (goToUpper k) true)
        else if boolean_falses.contains w then some (.ubool (goToUpper k) false)
        else none
      else none

/-- Perform one write; `none` models the panic on an absent target. -/
def applyUpd (reg : Registry) : Upd → Option Registry
  | .ustr k v =>
    if (alookup reg.str_map k).isSome then
      some { reg with str_map := aset reg.str_map k v } else none
  | .uint k v =>
    if (alookup reg.int_map k).isSome then
      some { reg with int_map := aset reg.int_map k v } else none
  | .uflt k v =>
    if (alookup reg.float_map k).isSome then
      some { reg with float_map := aset reg.float_map k v } else none
  | .ubool k v =>
    if (alookup reg.bool_map k).isSome then
      some { reg with bool_map := aset reg.bool_map k v } else none

/-- Perform a sequence of writes. -/
def applySeq (reg : Registry) : List Upd → Option Registry
  | [] => some reg
  | u :: us =>
    match applyUpd reg u with
    | none => none
    | some r => applySeq r us

theorem processLine_factor (reg : Registry) (l : String) (b : Bool) :
    processLine reg l b =
      match lineUpdate reg.option_flags l with
      | none => some reg
      | some u => applyUpd reg u := by
  unfold processLine lineUpdate
  cases lineClass l with
  | comment => rfl
  | blank => rfl
  | malformed => rfl
  | entry k v =>
    show Option.map (fun p => p.1) (setOption reg k v b) = _
    simp only [setOption]
    cases halk : alookup reg.option_flags (goToUpper k) with
    | none => rfl
    | some flags =>
      by_cases hS : hasAttr flags STRING = true
      · simp only [hS, if_true]
        cases hw : alookup reg.str_map (goToUpper k) with
        | none => simp [applyUpd, hw]
        | some w => simp [applyUpd, hw]
      · simp only [hS, Bool.false_eq_true, if_false]
        by_cases hI : hasAttr flags INT = true
        · simp only [hI, if_true]
          cases hA : goAtoi (if hasAttr flags UNSIGNED = true then
              (findUintToken v.data).getD [] else (findIntToken v.data).getD []) with
          | none => simp [hA]
          | some iv =>
            simp only [hA]
            cases hw : alookup reg.int_map (goToUpper k) with
            | none => simp [applyUpd, hw]
            | some w => simp [applyUpd, hw]
        · simp only [hI, Bool.false_eq_true, if_false]
          by_cases hF : hasAttr flags FLOAT = true
          · simp only [hF, if_true]
            cases hPF : goParseFloatOk (if hasAttr flags UNSIGNED = true then
                (findUfloatToken v.data).getD []
                else (findFloatToken v.data).getD []) with
            | false => simp [hPF]
            | true =>
              simp only [hPF, if_true]
              cases hw : alookup reg.float_map (goToUpper k) with
              | none => simp [applyUpd, hw]
              | some w => simp [applyUpd, hw]
          · simp only [hF, Bool.false_eq_true, if_false]
            by_cases hB : hasAttr flags BOOL = true
            · simp only [hB, if_true]
              cases ht : boolean_trues.contains (goToLower (goTrimSpace v)) with
              | true =>
                simp only [ht, if_true]
                cases hw : alookup reg.bool_map (goToUpper k) with
                | none => simp [applyUpd, hw]
                | some w => simp [applyUpd, hw]
              | false =>
                simp only [ht, Bool.false_eq_true, if_false]
                cases hfa : boolean_falses.contains (goToLower (goTrimSpace v)) with
                | true =>
                  simp only [hfa, if_true]
                  cases hw : alookup reg.bool_map (goToUpper k) with
                  | none => simp [applyUpd, hw]
                  | some w => simp [applyUpd, hw]
                | false => simp [hfa]
            · simp [hB]

theorem applyUpd_result (reg : Registry) (u : Upd) (r : Registry)
    (h : applyUpd reg u = some r) :
    r.option_flags = reg.option_flags ∧
    (∀ k, (alookup r.str_map k).isSome = (alookup reg.str_map k).isSome) ∧
    (∀ k, (alookup r.int_map k).isSome = (alookup reg.int_map k).isSome) ∧
    (∀ k, (alookup r.float_map k).isSome = (alookup reg.float_map k).isSome) ∧
    (∀ k, (alookup r.bool_map k).isSome = (alookup reg.bool_map k).isSome) := by
  cases u <;>
    (simp only [applyUpd] at h
     split at h
     · cases h
       refine ⟨rfl, fun k => ?_, fun k => ?_, fun k => ?_, fun k => ?_⟩ <;>
         simp [alookup_aset_isSome]
     · exact Option.noConfusion h)

theorem applyUpd_transfer (reg reg' : Registry) (u : Upd)
    (hs : ∀ k, (alookup reg'.str_map k).isSome = (alookup reg.str_map k).isSome)
    (hi : ∀ k, (alookup reg'.int_map k).isSome = (alookup reg.int_map k).isSome)
    (hf : ∀ k, (alookup reg'.float_map k).isSome = (alookup reg.float_map k).isSome)
    (hb : ∀ k, (alookup reg'.bool_map k).isSome = (alookup reg.bool_map k).isSome)
    (h : (applyUpd reg u).isSome = true) : (applyUpd reg' u).isSome = true := by
  cases u with
  | ustr k v =>
    simp only [applyUpd] at h ⊢
    by_cases hp : (alookup reg.str_map k).isSome = true
    · simp [hs k, hp]
    · simp [hp] at h
  | uint k v =>
    simp only [applyUpd] at h ⊢
    by_cases hp : (alookup reg.int_map k).isSome = true
    · simp [hi k, hp]
    · simp [hp] at h
  | uflt k v =>
    simp only [applyUpd] at h ⊢
    by_cases hp : (alookup reg.float_map k).isSome = true
    · simp [hf k, hp]
    · simp [hp] at h
  | ubool k v =>
    simp only [applyUpd] at h ⊢
    by_cases hp : (alookup reg.bool_map k).isSome = true
    · simp [hb k, hp]
    · simp [hp] at h

theorem applySeq_result (us : List Upd) (reg : Registry) (r : Registry)
    (h : applySeq reg us = some r) :
    r.option_flags = reg.option_flags ∧
    (∀ k, (alookup r.str_map k).isSome = (alookup reg.str_map k).isSome) ∧
    (∀ k, (alookup r.int_map k).isSome = (alookup reg.int_map k).isSome) ∧
    (∀ k, (alookup r.float_map k).isSome = (alookup reg.float_map k).isSome) ∧
    (∀ k, (alookup r.bool_map k).isSome = (alookup reg.bool_map k).isSome) := by
  induction us generalizing reg with
  | nil =>
    cases h
    exact ⟨rfl, fun _ => rfl, fun _ => rfl, fun _ => rfl, fun _ => rfl⟩
  | cons u t ih =>
    unfold applySeq at h
    cases hau : applyUpd reg u with
    | none => rw [hau] at h; cases h
    | some r0 =>
      rw [hau] at h
      obtain ⟨a1, a2, a3, a4, a5⟩ := applyUpd_result reg u r0 hau
      obtain ⟨b1, b2, b3, b4, b5⟩ := ih r0 h
      exact ⟨b1.trans a1, fun k => (b2 k).trans (a2 k),
        fun k => (b3 k).trans (a3 k), fun k => (b4 k).trans (a4 k),
        fun k => (b5 k).trans (a5 k)⟩

theorem applySeq_transfer (us : List Upd) (reg reg' : Registry) (r : Registry)
    (h : applySeq reg us = some r)
    (hs : ∀ k, (alookup reg'.str_map k).isSome = (alookup reg.str_map k).isSome)
    (hi : ∀ k, (alookup reg'.int_map k).isSome = (alookup reg.int_map k).isSome)
    (hf : ∀ k, (alookup reg'.float_map k).isSome = (alookup reg.float_map k).isSome)
    (hb : ∀ k, (alookup reg'.bool_map k).isSome = (alookup reg.bool_map k).isSome) :
    ∃ r', applySeq reg' us = some r' := by
  induction us generalizing reg reg' with
  | nil => exact ⟨reg', rfl⟩
  | cons u t ih =>
    unfold applySeq at h ⊢
    cases hau : applyUpd reg u with
    | none => rw [hau] at h; cases h
    | some r0 =>
      rw [hau] at h
      have hs0 : (applyUpd reg' u).isSome = true :=
        applyUpd_transfer reg reg' u hs hi hf hb (by rw [hau]; rfl)
      obtain ⟨r0', hr0'⟩ := Option.isSome_iff_exists.mp hs0
      rw [hr0']
      obtain ⟨_, c2, c3, c4, c5⟩ := applyUpd_result reg u r0 hau
      obtain ⟨_, d2, d3, d4, d5⟩ := applyUpd_result reg' u r0' hr0'
      exact ih r0 r0' h
        (fun k => (d2 k).trans ((hs k).trans (c2 k).symm))
        (fun k => (d3 k).trans ((hi k).trans (c3 k).symm))
        (fun k => (d4 k).trans ((hf k).trans (c4 k).symm))
        (fun k => (d5 k).trans ((hb k).trans (c5 k).symm))

/-- Effect of one write on the string value at key `k`. -/
def stepStr (k : String) (acc : Option String) (u : Upd) : Option String :=
  match u with
  | .ustr k' v => if k' = k then some v else acc
  | _ => acc

/-- Effect of one write on the integer value at key `k`. -/
def stepInt (k : String) (acc : Option Int) (u : Upd) : Option Int :=
  match u with
  | .uint k' v => if k' = k then some v else acc
  | _ => acc

/-- Effect of one write on the float value at key `k`. -/
def stepFlt (k : String) (acc : Option String) (u : Upd) : Option String :=
  match u with
  | .uflt k' v => if k' = k then some v else acc
  | _ => acc

/-- Effect of one write on the boolean value at key `k`. -/
def stepBool (k : String) (acc : Option Bool) (u : Upd) : Option Bool :=
  match u with
  | .ubool k' v => if k' = k then some v else acc
  | _ => acc

theorem applySeq_lookups (us : List Upd) (reg r : Registry)
    (h : applySeq reg us = some r) (k : String) :
    alookup r.str_map k = us.foldl (stepStr k) (alookup reg.str_map k) ∧
    alookup r.int_map k = us.foldl (stepInt k) (alookup reg.int_map k) ∧
    alookup r.float_map k = us.foldl (stepFlt k) (alookup reg.float_map k) ∧
    alookup r.bool_map k = us.foldl (stepBool k) (alookup reg.bool_map k) := by
  induction us generalizing reg with
  | nil =>
    cases h
    exact ⟨rfl, rfl, rfl, rfl⟩
  | cons u t ih =>
    unfold applySeq at h
    cases hau : applyUpd reg u with
    | none => rw [hau] at h; cases h
    | some r0 =>
      rw [hau] at h
      obtain ⟨ih1, ih2, ih3, ih4⟩ := ih r0 h
      have hstep : alookup r0.str_map k = stepStr k (alookup reg.str_map k) u ∧
          alookup r0.int_map k = stepInt k (alookup reg.int_map k) u ∧
          alookup r0.float_map k = stepFlt k (alookup reg.float_map k) u ∧
          alookup r0.bool_map k = stepBool k (alookup reg.bool_map k) u := by
        cases u with
        | ustr k' v =>
          simp only [applyUpd] at hau
          split at hau
          · cases hau
            refine ⟨?_, rfl, rfl, rfl⟩
            simp only [stepStr]
            rw [alookup_aset]
            rename_i hp
            by_cases hk : k' = k
            · subst hk
              simp [hp]
            · have hk2 : ¬(k = k') := fun hh => hk hh.symm
              simp [hk, hk2]
          · exact Option.noConfusion hau
        | uint k' v =>
          simp only [applyUpd] at hau
          split at hau
          · cases hau
            refine ⟨rfl, ?_, rfl, rfl⟩
            simp only [stepInt]
            rw [alookup_aset]
            rename_i hp
            by_cases hk : k' = k
            · subst hk
              simp [hp]
            · have hk2 : ¬(k = k') := fun hh => hk hh.symm
              simp [hk, hk2]
          · exact Option.noConfusion hau
        | uflt k' v =>
          simp only [applyUpd] at hau
          split at hau
          · cases hau
            refine ⟨rfl, rfl, ?_, rfl⟩
            simp only [stepFlt]
            rw [alookup_aset]
            rename_i hp
            by_cases hk : k' = k
            · subst hk
              simp [hp]
            · have hk2 : ¬(k = k') := fun hh => hk hh.symm
              simp [hk, hk2]
          · exact Option.noConfusion hau
        | ubool k' v =>
          simp only [applyUpd] at hau
          split at hau
          · cases hau
            refine ⟨rfl, rfl, rfl, ?_⟩
            simp only [stepBool]
            rw [alookup_aset]
            rename_i hp
            by_cases hk : k' = k
            · subst hk
              simp [hp]
            · have hk2 : ¬(k = k') := fun hh => hk hh.symm
              simp [hk, hk2]
          · exact Option.noConfusion hau
      obtain ⟨s1, s2, s3, s4⟩ := hstep
      refine ⟨?_, ?_, ?_, ?_⟩ <;>
        simp only [List.foldl_cons]
      · rw [ih1, s1]
      · rw [ih2, s2]
      · rw [ih3, s3]
      · rw [ih4, s4]

theorem foldl_idem {β : Type} (f : β → Upd → β)
    (hf : ∀ u, (∀ a b, f a u = f b u) ∨ (∀ a, f a u = a)) :
    ∀ (us : List Upd) (init : β),
      us.foldl f (us.foldl f init) = us.foldl f init := by
  intro us
  induction us using List.reverseRecOn with
  | nil => intro init; rfl
  | append_singleton t u ih =>
    intro init
    rcases hf u with hconst | hid
    · simp only [List.foldl_append, List.foldl_cons, List.foldl_nil]
      exact hconst _ _
    · simp only [List.foldl_append, List.foldl_cons, List.foldl_nil, hid]
      exact ih init

theorem stepStr_cases (k : String) (u : Upd) :
    (∀ a b, stepStr k a u = stepStr k b u) ∨ (∀ a, stepStr k a u = a) := by
  cases u with
  | ustr k' v =>
    by_cases hk : k' = k
    · exact Or.inl (fun a b => by simp [stepStr, hk])
    · exact Or.inr (fun a => by simp [stepStr, hk])
  | uint k' v => exact Or.inr (fun a => rfl)
  | uflt k' v => exact Or.inr (fun a => rfl)
  | ubool k' v => exact Or.inr (fun a => rfl)

theorem stepInt_cases (k : String) (u : Upd) :
    (∀ a b, stepInt k a u = stepInt k b u) ∨ (∀ a, stepInt k a u = a) := by
  cases u with
  | uint k' v =>
    by_cases hk : k' = k
    · exact Or.inl (fun a b => by simp [stepInt, hk])
    · exact Or.inr (fun a => by simp [stepInt, hk])
  | ustr k' v => exact Or.inr (fun a => rfl)
  | uflt k' v => exact Or.inr (fun a => rfl)
  | ubool k' v => exact Or.inr (fun a => rfl)

theorem stepFlt_cases (k : String) (u : Upd) :
    (∀ a b, stepFlt k a u = stepFlt k b u) ∨ (∀ a, stepFlt k a u = a) := by
  cases u with
  | uflt k' v =>
    by_cases hk : k' = k
    · exact Or.inl (fun a b => by simp [stepFlt, hk])
    · exact Or.inr (fun a => by simp [stepFlt, hk])
  | ustr k' v => exact Or.inr (fun a => rfl)
  | uint k' v => exact Or.inr (fun a => rfl)
  | ubool k' v => exact Or.inr (fun a => rfl)

theorem stepBool_cases (k : String) (u : Upd) :
    (∀ a b, stepBool k a u = stepBool k b u) ∨ (∀ a, stepBool k a u = a) := by
  cases u with
  | ubool k' v =>
    by_cases hk : k' = k
    · exact Or.inl (fun a b => by simp [stepBool, hk])
    · exact Or.inr (fun a => by simp [stepBool, hk])
  | ustr k' v => exact Or.inr (fun a => rfl)
  | uint k' v => exact Or.inr (fun a => rfl)
  | uflt k' v => exact Or.inr (fun a => rfl)

theorem processLines_factor (ls : List String) (reg : Registry) (b : Bool) :
    processLines reg ls b =
      applySeq reg (ls.filterMap (lineUpdate reg.option_flags)) := by
  induction ls generalizing reg with
  | nil => rfl
  | cons l t ih =>
    unfold processLines
    rw [processLine_factor]
    cases hlu : lineUpdate reg.option_flags l with
    | none =>
      simp only [List.filterMap_cons, hlu]
      exact ih reg
    | some u =>
      simp only [List.filterMap_cons, hlu]
      unfold applySeq
      cases hau : applyUpd reg u with
      | none => rfl
      | some r0 =>
        have hfl : r0.option_flags = reg.option_flags :=
          (applyUpd_result reg u r0 hau).1
        show processLines r0 t b =
          applySeq r0 (t.filterMap (lineUpdate reg.option_flags))
        rw [ih r0, hfl]

theorem processLines_idem (ls : List String) (reg reg1 : Registry) (b : Bool)
    (h : processLines reg ls b = some reg1) :
    ∃ reg2, processLines reg1 ls b = some reg2 ∧
      (∀ k, alookup reg2.str_map k = alookup reg1.str_map k) ∧
      (∀ k, alookup reg2.int_map k = alookup reg1.int_map k) ∧
      (∀ k, alookup reg2.float_map k = alookup reg1.float_map k) ∧
      (∀ k, alookup reg2.bool_map k = alookup reg1.bool_map k) := by
  rw [processLines_factor] at h
  obtain ⟨hfl, p2, p3, p4, p5⟩ :=
    applySeq_result (ls.filterMap (lineUpdate reg.option_flags)) reg reg1 h
  have h2 : processLines reg1 ls b =
      applySeq reg1 (ls.filterMap (lineUpdate reg.option_flags)) := by
    rw [processLines_factor, hfl]
  obtain ⟨reg2, hreg2⟩ :=
    applySeq_transfer (ls.filterMap (lineUpdate reg.option_flags))
      reg reg1 reg1 h p2 p3 p4 p5
  refine ⟨reg2, by rw [h2]; exact hreg2, ?_, ?_, ?_, ?_⟩ <;> intro k
  · obtain ⟨q1, _, _, _⟩ :=
      applySeq_lookups (ls.filterMap (lineUpdate reg.option_flags)) reg1 reg2 hreg2 k
    obtain ⟨r1, _, _, _⟩ :=
      applySeq_lookups (ls.filterMap (lineUpdate reg.option_flags)) reg reg1 h k
    rw [q1, r1, foldl_idem (stepStr k) (stepStr_cases k)]
  · obtain ⟨_, q2, _, _⟩ :=
      applySeq_lookups (ls.filterMap (lineUpdate reg.option_flags)) reg1 reg2 hreg2 k
    obtain ⟨_, r2, _, _⟩ :=
      applySeq_lookups (ls.filterMap (lineUpdate reg.option_flags)) reg reg1 h k
    rw [q2, r2, foldl_idem (stepInt k) (stepInt_cases k)]
  · obtain ⟨_, _, q3, _⟩ :=
      applySeq_lookups (ls.filterMap (lineUpdate reg.option_flags)) reg1 reg2 hreg2 k
    obtain ⟨_, _, r3, _⟩ :=
      applySeq_lookups (ls.filterMap (lineUpdate reg.option_flags)) reg reg1 h k
    rw [q3, r3, foldl_idem (stepFlt k) (stepFlt_cases k)]
  · obtain ⟨_, _, _, q4⟩ :=
      applySeq_lookups (ls.filterMap (lineUpdate reg.option_flags)) reg1 reg2 hreg2 k
    obtain ⟨_, _, _, r4⟩ :=
      applySeq_lookups (ls.filterMap (lineUpdate reg.option_flags)) reg reg1 h k
    rw [q4, r4, foldl_idem (stepBool k) (stepBool_cases k)]

theorem configure_opens (fs : FS) (files : List String) (reg : Registry)
    (b : Bool) (f : String) (hfind : findCfg fs files = f) (hne : f ≠ "")
    (opn : Bool) (lines : List String) (hopen : alookup fs f = some (opn, lines)) :
    Configure fs files reg b =
      (if opn then (processLines reg lines b).map Except.ok
       else some (.error .fileOpenError)) := by
  unfold Configure
  rw [hfind, if_neg hne, hopen]
  cases opn with
  | true => rfl
  | false => rfl

/-- Is `c` one of the separators `:` `=` forbidden in a key. -/
def isSepC (c : Char) : Bool := c = ':' || c = '='

theorem splitSep_none_iff (l : List Char) :
    splitSep l = none ↔ ∀ c ∈ l, isSepC c = false := by
  induction l with
  | nil => simp [splitSep]
  | cons c t ih =>
    by_cases hc : (c = ':' || c = '=') = true
    · simp only [splitSep, hc, if_true]
      constructor
      · intro h
        exact Option.noConfusion h
      · intro h
        have := h c (by simp)
        rw [isSepC] at this
        rw [hc] at this
        exact Bool.noConfusion this
    · simp only [splitSep, hc, if_false]
      constructor
      · intro h
        intro x hx
        rcases List.mem_cons.mp hx with hx | hx
        · subst hx
          simpa [isSepC] using hc
        · cases hsp : splitSep t with
          | none => exact (ih.mp hsp) x hx
          | some p => rw [hsp] at h; exact Option.noConfusion h
      · intro h
        have ht : splitSep t = none :=
          ih.mpr (fun x hx => h x (List.mem_cons_of_mem c hx))
        rw [ht]
        rfl

theorem splitSep_some_spec (l pre : List Char) (c : Char) (post : List Char)
    (h : splitSep l = some (pre, c, post)) :
    l = pre ++ c :: post ∧ isSepC c = true ∧ ∀ x ∈ pre, isSepC x = false := by
  induction l generalizing pre with
  | nil => exact Option.noConfusion h
  | cons c0 t ih =>
    by_cases hc : (c0 = ':' || c0 = '=') = true
    · simp only [splitSep, hc, if_true] at h
      simp only [Option.some.injEq, Prod.mk.injEq] at h
      obtain ⟨h1, h2, h3⟩ := h
      subst h1
      subst h2
      subst h3
      exact ⟨rfl, by simpa [isSepC] using hc, by simp⟩
    · simp only [splitSep, hc, if_false] at h
      cases hsp : splitSep t with
      | none => rw [hsp] at h; exact Option.noConfusion h
      | some p =>
        obtain ⟨p1, pc, p2⟩ := p
        rw [hsp] at h
        simp only [Option.map_some', Option.some.injEq, Prod.mk.injEq,
          Bool.false_eq_true, if_false] at h
        obtain ⟨h1, h2, h3⟩ := h
        subst h2
        subst h3
        obtain ⟨g1, g2, g3⟩ := ih p1 hsp
        constructor
        · rw [← h1, g1]
          rfl
        · refine ⟨g2, ?_⟩
          intro x hx
          rw [← h1] at hx
          rcases List.mem_cons.mp hx with hx | hx
          · subst hx
            simpa [isSepC] using hc
          · exact g3 x hx

theorem splitSep_of_decomp (pre : List Char) (c : Char) (post : List Char)
    (hsep : isSepC c = true) (hpre : ∀ x ∈ pre, isSepC x = false) :
    splitSep (pre ++ c :: post) = some (pre, c, post) := by
  induction pre with
  | nil =>
    simp only [List.nil_append, splitSep]
    rw [isSepC] at hsep
    simp only [hsep, if_true]
  | cons x t ih =>
    have hx : isSepC x = false := hpre x (by simp)
    have hx' : (x = ':' || x = '=') = false := by simpa [isSepC] using hx
    simp only [List.cons_append, splitSep, hx', Bool.false_eq_true, if_false,
      List.append_eq]
    rw [ih (fun y hy => hpre y (List.mem_cons_of_mem x hy))]
    rfl

theorem head_dropWhile_false (p : Char → Bool) (l : List Char) (d : Char)
    (h : (l.dropWhile p).head? = some d) : p d = false := by
  induction l with
  | nil => exact Option.noConfusion h
  | cons c t ih =>
    by_cases hp : p c = true
    · rw [List.dropWhile_cons_of_pos hp] at h
      exact ih h
    · rw [List.dropWhile_cons_of_neg hp] at h
      cases h
      simpa using hp

theorem mem_takeWhile_true (p : Char → Bool) (l : List Char) (c : Char)
    (h : c ∈ l.takeWhile p) : p c = true := by
  induction l with
  | nil => simp at h
  | cons x t ih =>
    by_cases hp : p x = true
    · rw [List.takeWhile_cons_of_pos hp] at h
      rcases List.mem_cons.mp h with h | h
      · subst h; exact hp
      · exact ih h
    · rw [List.takeWhile_cons_of_neg hp] at h
      simp at h

theorem findUintToken_none_iff (l : List Char) :
    findUintToken l = none ↔ ∀ c ∈ l, isDigitC c = false := by
  induction l with
  | nil => simp [findUintToken]
  | cons c t ih =>
    by_cases hd : isDigitC c = true
    · simp only [findUintToken, hd, if_true]
      constructor
      · intro h
        exact Option.noConfusion h
      · intro h
        rw [h c (by simp)] at hd
        exact Bool.noConfusion hd
    · have hd' : isDigitC c = false := by simpa using hd
      simp only [findUintToken, hd, Bool.false_eq_true, if_false]
      constructor
      · intro h x hx
        rcases List.mem_cons.mp hx with hx | hx
        · subst hx; exact hd'
        · exact (ih.mp h) x hx
      · intro h
        exact ih.mpr (fun x hx => h x (List.mem_cons_of_mem c hx))

theorem findUintToken_some_spec (l t : List Char) (h : findUintToken l = some t) :
    ∃ pre post, l = pre ++ t ++ post ∧ t ≠ [] ∧
      (∀ c ∈ t, isDigitC c = true) ∧ (∀ c ∈ pre, isDigitC c = false) ∧
      ∀ d, post.head? = some d → isDigitC d = false := by
  induction l with
  | nil => exact Option.noConfusion h
  | cons c rest ih =>
    by_cases hd : isDigitC c = true
    · simp only [findUintToken, hd, if_true, Option.some.injEq] at h
      refine ⟨[], (c :: rest).dropWhile isDigitC, ?_, ?_, ?_, ?_, ?_⟩
      · rw [List.nil_append, ← h, List.takeWhile_append_dropWhile]
      · rw [← h, List.takeWhile_cons_of_pos hd]
        exact List.cons_ne_nil _ _
      · intro x hx
        rw [← h] at hx
        exact mem_takeWhile_true isDigitC (c :: rest) x hx
      · intro x hx
        simp at hx
      · intro d hdp
        exact head_dropWhile_false isDigitC (c :: rest) d hdp
    · have hd' : isDigitC c = false := by simpa using hd
      simp only [findUintToken, hd, Bool.false_eq_true, if_false] at h
      obtain ⟨pre, post, g1, g2, g3, g4, g5⟩ := ih h
      refine ⟨c :: pre, post, ?_, g2, g3, ?_, g5⟩
      · simp only [List.cons_append]
        rw [g1]
      · intro x hx
        rcases List.mem_cons.mp hx with hx | hx
        · subst hx; exact hd'
        · exact g4 x hx

theorem findIntToken_none_iff (l : List Char) :
    findIntToken l = none ↔ ∀ c ∈ l, isDigitC c = false := by
  induction l with
  | nil => simp [findIntToken]
  | cons c t ih =>
    by_cases hd : isDigitC c = true
    · simp only [findIntToken, hd, if_true]
      constructor
      · intro h
        exact Option.noConfusion h
      · intro h
        rw [h c (by simp)] at hd
        exact Bool.noConfusion hd
    · have hd' : isDigitC c = false := by simpa using hd
      by_cases hm : (c = '-' && headDigit t) = true
      · simp only [findIntToken, hd, Bool.false_eq_true, if_false, hm, if_true]
        rw [Bool.and_eq_true] at hm
        constructor
        · intro h
          exact Option.noConfusion h
        · intro h
          cases t with
          | nil => simp [headDigit] at hm
          | cons d t2 =>
            have hdd := h d (by simp)
            rw [show headDigit (d :: t2) = isDigitC d from rfl, hdd] at hm
            exact Bool.noConfusion hm.2
      · have hm' : (c = '-' && headDigit t) = false := by simpa using hm
        simp only [findIntToken, hd, Bool.false_eq_true, if_false, hm']
        constructor
        · intro h x hx
          rcases List.mem_cons.mp hx with hx | hx
          · subst hx
            exact hd'
          · exact (ih.mp h) x hx
        · intro h
          exact ih.mpr (fun x hx => h x (List.mem_cons_of_mem c hx))

theorem findIntToken_some_spec (l t : List Char) (h : findIntToken l = some t) :
    ∃ pre ds post, l = pre ++ t ++ post ∧ ds ≠ [] ∧
      (∀ c ∈ ds, isDigitC c = true) ∧ (t = ds ∨ t = '-' :: ds) ∧
      (∀ c ∈ pre, isDigitC c = false) ∧
      (∀ d, post.head? = some d → isDigitC d = false) ∧
      (∀ d, t.head? = some d → isDigitC d = true → pre.getLast? ≠ some '-') := by
  induction l with
  | nil => exact Option.noConfusion h
  | cons c rest ih =>
    by_cases hd : isDigitC c = true
    · simp only [findIntToken, hd, if_true, Option.some.injEq] at h
      refine ⟨[], t, (c :: rest).dropWhile isDigitC, ?_, ?_, ?_, Or.inl rfl, ?_,
        ?_, ?_⟩
      · rw [List.nil_append, ← h, List.takeWhile_append_dropWhile]
      · rw [← h, List.takeWhile_cons_of_pos hd]
        exact List.cons_ne_nil _ _
      · intro x hx
        rw [← h] at hx
        exact mem_takeWhile_true isDigitC (c :: rest) x hx
      · intro x hx
        simp at hx
      · intro d hdp
        exact head_dropWhile_false isDigitC (c :: rest) d hdp
      · intro d _ _
        simp
    · have hd' : isDigitC c = false := by simpa using hd
      by_cases hm : (c = '-' && headDigit rest) = true
      · simp only [findIntToken, hd, Bool.false_eq_true, if_false, hm, if_true,
          Option.some.injEq] at h
        rw [Bool.and_eq_true, decide_eq_true_eq] at hm
        obtain ⟨hc, hhead⟩ := hm
        subst hc
        refine ⟨[], rest.takeWhile isDigitC, rest.dropWhile isDigitC, ?_, ?_, ?_,
          Or.inr h.symm, ?_, ?_, ?_⟩
        · rw [List.nil_append, ← h]
          rw [show ('-' :: rest.takeWhile isDigitC) ++ rest.dropWhile isDigitC =
            '-' :: (rest.takeWhile isDigitC ++ rest.dropWhile isDigitC) from rfl]
          rw [List.takeWhile_append_dropWhile]
        · cases rest with
          | nil => simp [headDigit] at hhead
          | cons d rest2 =>
            rw [List.takeWhile_cons_of_pos (by simpa [headDigit] using hhead)]
            exact List.cons_ne_nil _ _
        · intro x hx
          exact mem_takeWhile_true isDigitC rest x hx
        · intro x hx
          simp at hx
        · intro d hdp
          exact head_dropWhile_false isDigitC rest d hdp
        · intro d hh hdig
          rw [← h] at hh
          cases hh
          simp [isDigitC] at hdig
      · have hm' : (c = '-' && headDigit rest) = false := by simpa using hm
        simp only [findIntToken, hd, Bool.false_eq_true, if_false, hm'] at h
        obtain ⟨pre, ds, post, g1, g2, g3, g4, g5, g6, g7⟩ := ih h
        refine ⟨c :: pre, ds, post, ?_, g2, g3, g4, ?_, g6, ?_⟩
        · simp only [List.cons_append]
          rw [g1]
        · intro x hx
          rcases List.mem_cons.mp hx with hx | hx
          · subst hx
            exact hd'
          · exact g5 x hx
        · intro d0 hh hdig
          cases hpre : pre with
          | cons p pre2 =>
            subst hpre
            rw [List.getLast?_cons_cons]
            exact g7 d0 hh hdig
          | nil =>
            subst hpre
            have ht : t ≠ [] := by
              rcases g4 with g4 | g4
              · rw [g4]; exact g2
              · rw [g4]; exact List.cons_ne_nil _ _
            have hrest : rest.head? = some d0 := by
              rw [List.nil_append] at g1
              cases htc : t with
              | nil => exact absurd htc ht
              | cons x t2 =>
                rw [htc] at hh
                cases hh
                rw [g1, htc]
                rfl
            have hcne : c ≠ '-' := by
              intro hcc
              subst hcc
              rw [Bool.and_eq_true, decide_eq_true_eq] at hm
              apply hm
              refine ⟨rfl, ?_⟩
              cases rest with
              | nil => exact Option.noConfusion hrest
              | cons d1 rest2 =>
                cases hrest
                exact hdig
            intro hlast
            simp at hlast
            exact hcne hlast

theorem alookup_isSome_mem {α : Type} (l : List (String × α)) (k : String)
    (h : (alookup l k).isSome = true) : ∃ v, (k, v) ∈ l := by
  induction l with
  | nil => simp [alookup] at h
  | cons hd t ih =>
    obtain ⟨k', v'⟩ := hd
    by_cases hk : k' = k
    · subst hk
      exact ⟨v', by simp⟩
    · rw [alookup, if_neg hk] at h
      obtain ⟨v, hv⟩ := ih h
      exact ⟨v, List.mem_cons_of_mem _ hv⟩

theorem findCfg_spec (fs : FS) (hfs : ∀ e ∈ fs, e.1 ≠ "") (files : List String) :
    (files.find? (statExists fs) = none → findCfg fs files = "") ∧
    (∀ f, files.find? (statExists fs) = some f →
      findCfg fs files = f ∧ f ≠ "") := by
  induction files with
  | nil => exact ⟨fun _ => rfl, fun f h => Option.noConfusion h⟩
  | cons g rest ih =>
    by_cases hg : statExists fs g = true
    · constructor
      · intro h
        rw [List.find?_cons_of_pos _ hg] at h
        exact Option.noConfusion h
      · intro f h
        rw [List.find?_cons_of_pos _ hg] at h
        cases h
        constructor
        · rw [findCfg, if_pos hg]
        · obtain ⟨v, hv⟩ := alookup_isSome_mem fs g hg
          exact hfs (g, v) hv
    · have hg' : statExists fs g = false := by simpa using hg
      constructor
      · intro h
        rw [List.find?_cons_of_neg _ hg] at h
        rw [findCfg, if_neg (by simp [hg'])]
        exact (ih.1) h
      · intro f h
        rw [List.find?_cons_of_neg _ hg] at h
        rw [findCfg, if_neg (by simp [hg'])]
        exact (ih.2) f h

theorem optionMatch_some_of_decomp (line : String) (k v : List Char)
    (hdec : line.data = k ++ '=' :: v) (hk : k ≠ [])
    (hsep : ∀ c ∈ k, isSepC c = false) :
    optionMatch line =
      some (String.mk (k.drop (min (k.takeWhile goRegexSpace).length
        (k.length - 1))), String.mk v) := by
  unfold optionMatch
  rw [hdec, splitSep_of_decomp k '=' v (by decide) hsep]
  simp only [hk, decide_True, Bool.and_true]
  rw [if_pos]
  simp [hk]

theorem optionMatch_some_spec (line : String) (k v : String)
    (h : optionMatch line = some (k, v)) :
    ∃ pre, line.data = pre ++ '=' :: v.data ∧ pre ≠ [] ∧
      (∀ c ∈ pre, isSepC c = false) ∧
      k.data = pre.drop (min (pre.takeWhile goRegexSpace).length (pre.length - 1)) := by
  unfold optionMatch at h
  split at h
  · exact Option.noConfusion h
  · rename_i pre c post hsp
    split at h
    · rename_i hcond
      rw [Bool.and_eq_true, decide_eq_true_eq, decide_eq_true_eq] at hcond
      obtain ⟨hc, hpre⟩ := hcond
      subst hc
      obtain ⟨g1, _, g3⟩ := splitSep_some_spec line.data pre '=' post hsp
      simp only [Option.some.injEq, Prod.mk.injEq] at h
      obtain ⟨hkk, hvv⟩ := h
      refine ⟨pre, ?_, hpre, g3, ?_⟩
      · rw [g1, ← hvv]
      · rw [← hkk]
    · exact Option.noConfusion h

/-- C1 counterexample: the claim says a flags argument containing the
type bit 16 (`BOOL`), invalid for every type, makes `AddInt` return
`UnsupportedFlag`; in fact `AddInt` only checks the `STRIP`, `UPPER`,
`LOWER` bits, so the call succeeds and registers the option. -/
theorem C1_counterexample :
    AddInt Reset 0 "X" BOOL =
      Except.ok ⟨[], [("X", 0)], [], [], [("X", 80)]⟩ ∧
    ¬AddInt Reset 0 "X" BOOL = Except.error Err.unsupportedFlag := by
  decide

/-- C1 (amended): a registration call returns `UnsupportedFlag` exactly
when its flags argument contains a bit of its type's disallowed set —
`STRIP`, `UPPER` or `LOWER` for `AddInt` and `AddFloat`, `UNSIGNED` for
`AddString`; bits outside the checked set (the type bits 16/32/64/128
included) are never rejected.  On rejection nothing is registered: the
error is returned before any map is touched. -/
theorem C1_unsupported_flag (reg : Registry) (ti : Int) (ts tf name : String)
    (flags : Nat) :
    (AddInt reg ti name flags = Except.error Err.unsupportedFlag ↔
      flags &&& disallowed_int_opts ≠ 0) ∧
    (AddFloat reg tf name flags = Except.error Err.unsupportedFlag ↔
      flags &&& disallowed_float_opts ≠ 0) ∧
    (AddString reg ts name flags = Except.error Err.unsupportedFlag ↔
      flags &&& disallowed_str_opts ≠ 0) := by
  refine ⟨⟨?_, ?_⟩, ⟨?_, ?_⟩, ⟨?_, ?_⟩⟩
  · intro h
    by_cases hf : flags &&& disallowed_int_opts ≠ 0
    · exact hf
    · exfalso
      simp only [AddInt, hf, if_false] at h
      by_cases hex : optionExists reg (goToUpper name) = true
      · rw [if_pos hex] at h
        injection h with h2
        exact Err.noConfusion h2
      · rw [if_neg hex] at h
        exact Except.noConfusion h
  · intro hf
    simp only [AddInt]
    rw [if_pos hf]
  · intro h
    by_cases hf : flags &&& disallowed_float_opts ≠ 0
    · exact hf
    · exfalso
      simp only [AddFloat, hf, if_false] at h
      by_cases hex : optionExists reg (goToUpper name) = true
      · rw [if_pos hex] at h
        injection h with h2
        exact Err.noConfusion h2
      · rw [if_neg hex] at h
        exact Except.noConfusion h
  · intro hf
    simp only [AddFloat]
    rw [if_pos hf]
  · intro h
    by_cases hf : flags &&& disallowed_str_opts ≠ 0
    · exact hf
    · exfalso
      simp only [AddString, hf, if_false] at h
      by_cases hex : optionExists reg (goToUpper name) = true
      · rw [if_pos hex] at h
        injection h with h2
        exact Err.noConfusion h2
      · rw [if_neg hex] at h
        exact Except.noConfusion h
  · intro hf
    simp only [AddString]
    rw [if_pos hf]

/-- C7 counterexample: after `X` is declared, a second `AddInt` for `X`
carrying the disallowed `STRIP` flag returns `UnsupportedFlag`, not
`DuplicateOption` — the flag check runs before the duplicate check. -/
theorem C7_counterexample :
    AddInt Reset 0 "X" NONE =
      Except.ok ⟨[], [("X", 0)], [], [], [("X", 64)]⟩ ∧
    AddInt ⟨[], [("X", 0)], [], [], [("X", 64)]⟩ 0 "X" STRIP =
      Except.error Err.unsupportedFlag ∧
    Err.unsupportedFlag ≠ Err.duplicateOption := by
  decide

/-- Registry states reachable through `Reset` and successful `AddX`
calls with arbitrary flag arguments. -/
inductive Reach : Registry → Prop where
  | reset : Reach Reset
  | addString : ∀ reg reg' t n fl, Reach reg →
      AddString reg t n fl = .ok reg' → Reach reg'
  | addInt : ∀ reg reg' t n fl, Reach reg →
      AddInt reg t n fl = .ok reg' → Reach reg'
  | addFloat : ∀ reg reg' t n fl, Reach reg →
      AddFloat reg t n fl = .ok reg' → Reach reg'
  | addBool : ∀ reg reg' t n, Reach reg →
      AddBool reg t n = .ok reg' → Reach reg'

/-- How many of the four target maps declare the name `k`. -/
def declCount (reg : Registry) (k : String) : Nat :=
  (if (alookup reg.str_map k).isSome then 1 else 0) +
  (if (alookup reg.int_map k).isSome then 1 else 0) +
  (if (alookup reg.float_map k).isSome then 1 else 0) +
  (if (alookup reg.bool_map k).isSome then 1 else 0)

theorem declCount_addInt (reg reg' : Registry) (t : Int) (n : String) (fl : Nat)
    (h : AddInt reg t n fl = .ok reg') (hIH : ∀ k, declCount reg k ≤ 1) :
    ∀ k, declCount reg' k ≤ 1 := by
  simp only [AddInt] at h
  by_cases hflag : fl &&& disallowed_int_opts ≠ 0
  · simp [hflag] at h
  · simp only [hflag, if_false] at h
    by_cases hex : optionExists reg (goToUpper n) = true
    · simp [hex] at h
    · rw [Bool.not_eq_true] at hex
      simp only [hex, Bool.false_eq_true, if_false] at h
      have hlk := optionExists_false_lookups reg (goToUpper n) hex
      rw [goToUpper_idem] at hlk
      obtain ⟨hs, hi, hf2, hb⟩ := hlk
      cases h
      intro k
      by_cases hk : k = goToUpper n
      · subst hk
        simp [declCount, alookup_ainsert, hs, hi, hf2, hb]
      · have hk' : ¬(k = goToUpper n) := hk
        simp only [declCount, alookup_ainsert, if_neg hk']
        exact hIH k

theorem declCount_addString (reg reg' : Registry) (t : String) (n : String)
    (fl : Nat) (h : AddString reg t n fl = .ok reg')
    (hIH : ∀ k, declCount reg k ≤ 1) : ∀ k, declCount reg' k ≤ 1 := by
  simp only [AddString] at h
  by_cases hflag : fl &&& disallowed_str_opts ≠ 0
  · simp [hflag] at h
  · simp only [hflag, if_false] at h
    by_cases hex : optionExists reg (goToUpper n) = true
    · simp [hex] at h
    · rw [Bool.not_eq_true] at hex
      simp only [hex, Bool.false_eq_true, if_false] at h
      have hlk := optionExists_false_lookups reg (goToUpper n) hex
      rw [goToUpper_idem] at hlk
      obtain ⟨hs, hi, hf2, hb⟩ := hlk
      cases h
      intro k
      by_cases hk : k = goToUpper n
      · subst hk
        simp [declCount, alookup_ainsert, hs, hi, hf2, hb]
      · have hk' : ¬(k = goToUpper n) := hk
        simp only [declCount, alookup_ainsert, if_neg hk']
        exact hIH k

theorem declCount_addFloat (reg reg' : Registry) (t : String) (n : String)
    (fl : Nat) (h : AddFloat reg t n fl = .ok reg')
    (hIH : ∀ k, declCount reg k ≤ 1) : ∀ k, declCount reg' k ≤ 1 := by
  simp only [AddFloat] at h
  by_cases hflag : fl &&& disallowed_float_opts ≠ 0
  · simp [hflag] at h
  · simp only [hflag, if_false] at h
    by_cases hex : optionExists reg (goToUpper n) = true
    · simp [hex] at h
    · rw [Bool.not_eq_true] at hex
      simp only [hex, Bool.false_eq_true, if_false] at h
      have hlk := optionExists_false_lookups reg (goToUpper n) hex
      rw [goToUpper_idem] at hlk
      obtain ⟨hs, hi, hf2, hb⟩ := hlk
      cases h
      intro k
      by_cases hk : k = goToUpper n
      · subst hk
        simp [declCount, alookup_ainsert, hs, hi, hf2, hb]
      · have hk' : ¬(k = goToUpper n) := hk
        simp only [declCount, alookup_ainsert, if_neg hk']
        exact hIH k

theorem declCount_addBool (reg reg' : Registry) (t : Bool) (n : String)
    (h : AddBool reg t n = .ok reg') (hIH : ∀ k, declCount reg k ≤ 1) :
    ∀ k, declCount reg' k ≤ 1 := by
  simp only [AddBool] at h
  by_cases hex : optionExists reg (goToUpper n) = true
  · simp [hex] at h
  · rw [Bool.not_eq_true] at hex
    simp only [hex, Bool.false_eq_true, if_false] at h
    have hlk := optionExists_false_lookups reg (goToUpper n) hex
    rw [goToUpper_idem] at hlk
    obtain ⟨hs, hi, hf2, hb⟩ := hlk
    cases h
    intro k
    by_cases hk : k = goToUpper n
    · subst hk
      simp [declCount, alookup_ainsert, hs, hi, hf2, hb]
    · have hk' : ¬(k = goToUpper n) := hk
      simp only [declCount, alookup_ainsert, if_neg hk']
      exact hIH k

/-- C7 (amended): every registry state reachable through `Reset` and
successful `AddX` calls declares each name in at most one map, and a
second `AddX` call for an already-declared canonical name returns
`DuplicateOption` provided its flags pass the type's flag check — the
flag check runs first, so with a disallowed flag bit the call returns
`UnsupportedFlag` instead.  Either way the error is returned before any
map is touched. -/
theorem C7_unique_names :
    (∀ reg, Reach reg → ∀ k, declCount reg k ≤ 1) ∧
    (∀ reg (t : Int) n flags, optionExists reg (goToUpper n) = true →
      AddInt reg t n flags =
        (if flags &&& disallowed_int_opts ≠ 0 then Except.error Err.unsupportedFlag
         else Except.error Err.duplicateOption)) ∧
    (∀ reg (t : String) n flags, optionExists reg (goToUpper n) = true →
      AddString reg t n flags =
        (if flags &&& disallowed_str_opts ≠ 0 then Except.error Err.unsupportedFlag
         else Except.error Err.duplicateOption)) ∧
    (∀ reg (t : String) n flags, optionExists reg (goToUpper n) = true →
      AddFloat reg t n flags =
        (if flags &&& disallowed_float_opts ≠ 0 then Except.error Err.unsupportedFlag
         else Except.error Err.duplicateOption)) ∧
    (∀ reg (t : Bool) n, optionExists reg (goToUpper n) = true →
      AddBool reg t n = Except.error Err.duplicateOption) := by
  refine ⟨?_, ?_, ?_, ?_, ?_⟩
  · intro reg hreach
    induction hreach with
    | reset => intro k; simp [declCount, Reset, alookup]
    | addString reg reg' t n fl _ hok ih => exact declCount_addString reg reg' t n fl hok ih
    | addInt reg reg' t n fl _ hok ih => exact declCount_addInt reg reg' t n fl hok ih
    | addFloat reg reg' t n fl _ hok ih => exact declCount_addFloat reg reg' t n fl hok ih
    | addBool reg reg' t n _ hok ih => exact declCount_addBool reg reg' t n hok ih
  · intro reg t n flags hex
    simp only [AddInt]
    by_cases hflag : flags &&& disallowed_int_opts ≠ 0
    · rw [if_pos hflag, if_pos hflag]
    · rw [if_neg hflag, if_neg hflag, if_pos hex]
  · intro reg t n flags hex
    simp only [AddString]
    by_cases hflag : flags &&& disallowed_str_opts ≠ 0
    · rw [if_pos hflag, if_pos hflag]
    · rw [if_neg hflag, if_neg hflag, if_pos hex]
  · intro reg t n flags hex
    simp only [AddFloat]
    by_cases hflag : flags &&& disallowed_float_opts ≠ 0
    · rw [if_pos hflag, if_pos hflag]
    · rw [if_neg hflag, if_neg hflag, if_pos hex]
  · intro reg t n hex
    simp only [AddBool]
    rw [if_pos hex]

/-- C7 witness: a concrete reachable one-option registry has declaration
count 1 for its name, and each duplicate registration of the name, in
any letter case and under any type, is rejected. -/
theorem C7_unique_names_witness :
    declCount ⟨[], [("X", 0)], [], [], [("X", 64)]⟩ "X" ≤ 1 ∧
    AddInt ⟨[], [("X", 0)], [], [], [("X", 64)]⟩ 0 "x" 0 =
      Except.error Err.duplicateOption ∧
    AddString ⟨[], [("X", 0)], [], [], [("X", 64)]⟩ "" "x" 0 =
      Except.error Err.duplicateOption ∧
    AddBool ⟨[], [("X", 0)], [], [], [("X", 64)]⟩ false "X" =
      Except.error Err.duplicateOption := by
  refine ⟨?_, ?_, ?_, ?_⟩
  · exact C7_unique_names.1 ⟨[], [("X", 0)], [], [], [("X", 64)]⟩
      (Reach.addInt Reset _ 0 "X" 0 Reach.reset (by decide)) "X"
  · rw [C7_unique_names.2.1 ⟨[], [("X", 0)], [], [], [("X", 64)]⟩ 0 "x" 0
      (by decide)]
    decide
  · rw [C7_unique_names.2.2.1 ⟨[], [("X", 0)], [], [], [("X", 64)]⟩ "" "x" 0
      (by decide)]
    decide
  · rw [C7_unique_names.2.2.2.2 ⟨[], [("X", 0)], [], [], [("X", 64)]⟩ false "X"
      (by decide)]

theorem isSepC_false_iff (c : Char) : isSepC c = false ↔ (¬c = ':' ∧ ¬c = '=') := by
  rw [isSepC, Bool.or_eq_false_iff]
  simp

theorem nonblankRe_false_iff (line : String) :
    nonblankRe line = false ↔ ∀ c ∈ line.data, goRegexSpace c = true := by
  rw [nonblankRe]
  simp [List.any_eq_true]

theorem nonblankRe_true_iff (line : String) :
    nonblankRe line = true ↔ ∃ c ∈ line.data, goRegexSpace c = false := by
  rw [nonblankRe]
  simp [List.any_eq_true]

/-- C3: line classification proceeds in source order — a line whose
first character after its maximal leading whitespace run is `#` is a
comment, even when it would also match the entry shape; a line of only
whitespace (that is not a comment) is blank; a remaining line is an
entry exactly when it decomposes as a nonempty `:`-and-`=`-free key,
then `=`, then the rest of the line, and the entry's value component is
exactly that unprocessed remainder after the first `=`; anything else is
malformed. -/
theorem C3_line_classification (line : String) :
    (lineClass line = LineClass.comment ↔ commentRe line = true) ∧
    (commentRe line = true ↔
      (line.data.dropWhile goRegexSpace).head? = some '#') ∧
    (lineClass line = LineClass.blank ↔
      (commentRe line = false ∧ ∀ c ∈ line.data, goRegexSpace c = true)) ∧
    ((∃ k v, lineClass line = LineClass.entry k v) ↔
      (commentRe line = false ∧ (∃ c ∈ line.data, goRegexSpace c = false) ∧
       ∃ k v, line.data = k ++ '=' :: v ∧ k ≠ [] ∧
         ∀ c ∈ k, ¬c = ':' ∧ ¬c = '=')) ∧
    (∀ k v, lineClass line = LineClass.entry k v →
      ∃ pre, line.data = pre ++ '=' :: v.data ∧
        ∀ c ∈ pre, ¬c = ':' ∧ ¬c = '=') := by
  have hshape : commentRe line = true ↔
      (line.data.dropWhile goRegexSpace).head? = some '#' := by
    rw [commentRe]
    cases hdw : line.data.dropWhile goRegexSpace with
    | nil => simp
    | cons c t => simp
  by_cases hc : commentRe line = true
  · have hclass : lineClass line = LineClass.comment := by
      rw [lineClass, if_pos hc]
    refine ⟨by simp [hclass, hc], hshape, ?_, ?_, ?_⟩
    · rw [hclass]
      simp [hc]
    · rw [hclass]
      simp [hc]
    · intro k v hkv
      rw [hclass] at hkv
      exact LineClass.noConfusion hkv
  · have hc' : commentRe line = false := by simpa using hc
    by_cases hnb : nonblankRe line = true
    · have hclass : lineClass line =
          (match optionMatch line with
           | none => LineClass.malformed
           | some (k, v) => LineClass.entry k v) := by
        rw [lineClass, if_neg hc, if_neg (by simp [hnb])]
      refine ⟨?_, hshape, ?_, ?_, ?_⟩
      · rw [hclass]
        cases hom : optionMatch line with
        | none => simp [hc]
        | some p => obtain ⟨k, v⟩ := p; simp [hc]
      · rw [hclass]
        cases hom : optionMatch line with
        | none =>
          simp only [hc', true_and]
          constructor
          · intro h
            exact absurd h (by simp)
          · intro h
            rw [← nonblankRe_false_iff] at h
            rw [h] at hnb
            exact Bool.noConfusion hnb
        | some p =>
          obtain ⟨k, v⟩ := p
          simp only [hc', true_and]
          constructor
          · intro h
            exact absurd h (by simp)
          · intro h
            rw [← nonblankRe_false_iff] at h
            rw [h] at hnb
            exact Bool.noConfusion hnb
      · constructor
        · rintro ⟨k, v, hkv⟩
          rw [hclass] at hkv
          cases hom : optionMatch line with
          | none =>
            rw [hom] at hkv
            exact LineClass.noConfusion hkv
          | some p =>
            obtain ⟨k0, v0⟩ := p
            obtain ⟨pre, g1, g2, g3, _⟩ :=
              optionMatch_some_spec line k0 v0 hom
            refine ⟨hc', (nonblankRe_true_iff line).mp hnb, pre, '=' :: v0.data |>.tail, ?_, g2, ?_⟩
            · simpa using g1
            · intro c hcm
              exact (isSepC_false_iff c).mp (g3 c hcm)
        · rintro ⟨_, _, k, v, hdec, hk, hsep⟩
          have hsep' : ∀ c ∈ k, isSepC c = false :=
            fun c hcm => (isSepC_false_iff c).mpr (hsep c hcm)
          have hom := optionMatch_some_of_decomp line k v hdec hk hsep'
          refine ⟨String.mk (k.drop (min (k.takeWhile goRegexSpace).length
            (k.length - 1))), String.mk v, ?_⟩
          rw [hclass, hom]
      · intro k v hkv
        rw [hclass] at hkv
        cases hom : optionMatch line with
        | none =>
          rw [hom] at hkv
          exact LineClass.noConfusion hkv
        | some p =>
          obtain ⟨k0, v0⟩ := p
          rw [hom] at hkv
          injection hkv with h1 h2
          subst h1
          subst h2
          obtain ⟨pre, g1, _, g3, _⟩ := optionMatch_some_spec line k0 v0 hom
          exact ⟨pre, g1, fun c hcm => (isSepC_false_iff c).mp (g3 c hcm)⟩
    · have hnb' : nonblankRe line = false := by simpa using hnb
      have hclass : lineClass line = LineClass.blank := by
        rw [lineClass, if_neg hc, if_pos (by simp [hnb'])]
      refine ⟨by simp [hclass, hc], hshape, ?_, ?_, ?_⟩
      · rw [hclass]
        simp only [true_iff]
        exact ⟨hc', (nonblankRe_false_iff line).mp hnb'⟩
      · rw [hclass]
        constructor
        · rintro ⟨k, v, hkv⟩
          exact LineClass.noConfusion hkv
        · rintro ⟨_, ⟨c, hcm, hcf⟩, _⟩
          have := (nonblankRe_false_iff line).mp hnb' c hcm
          rw [this] at hcf
          exact Bool.noConfusion hcf
      · intro k v hkv
        rw [hclass] at hkv
        exact LineClass.noConfusion hkv

/-- C4: for a declared Boolean option, coercion trims and case-folds the
raw value and writes `true` to the target iff the result is in the
true-literal set, `false` iff it is in the false-literal set, and
otherwise reports a coercion failure leaving the registry unchanged. -/
theorem C4_bool_coercion (reg : Registry) (n v : String) (b : Bool) (fl : Nat)
    (hlk : alookup reg.option_flags (goToUpper n) = some fl)
    (hS : hasAttr fl STRING = false) (hI : hasAttr fl INT = false)
    (hF : hasAttr fl FLOAT = false) (hB : hasAttr fl BOOL = true)
    (hp : (alookup reg.bool_map (goToUpper n)).isSome = true) :
    (boolean_trues.contains (goToLower (goTrimSpace v)) = true →
      setOption reg n v b =
        some ({ reg with bool_map := aset reg.bool_map (goToUpper n) true },
          none)) ∧
    (boolean_trues.contains (goToLower (goTrimSpace v)) = false →
      boolean_falses.contains (goToLower (goTrimSpace v)) = true →
      setOption reg n v b =
        some ({ reg with bool_map := aset reg.bool_map (goToUpper n) false },
          none)) ∧
    (boolean_trues.contains (goToLower (goTrimSpace v)) = false →
      boolean_falses.contains (goToLower (goTrimSpace v)) = false →
      setOption reg n v b = some (reg, some Err.coercionFailure)) := by
  obtain ⟨w, hw⟩ := Option.isSome_iff_exists.mp hp
  refine ⟨?_, ?_, ?_⟩
  · intro ht
    have ht' : goToLower (goTrimSpace v) ∈ boolean_trues := by simpa using ht
    simp [setOption, hlk, hS, hI, hF, hB, ht', hw]
  · intro ht hfa
    have ht' : goToLower (goTrimSpace v) ∉ boolean_trues := by simpa using ht
    have hfa' : goToLower (goTrimSpace v) ∈ boolean_falses := by simpa using hfa
    simp [setOption, hlk, hS, hI, hF, hB, ht', hfa', hw]
  · intro ht hfa
    have ht' : goToLower (goTrimSpace v) ∉ boolean_trues := by simpa using ht
    have hfa' : goToLower (goTrimSpace v) ∉ boolean_falses := by simpa using hfa
    simp [setOption, hlk, hS, hI, hF, hB, ht', hfa']

/-- C4 witness: on a concrete Boolean option with prior value `false`,
the inputs `YES`, ` true `, `1`, `+` each store `true`; `no`, `0`,
`nil` each store `false`; `maybe` is a coercion failure that leaves the
value unchanged. -/
theorem C4_bool_coercion_witness :
    setOption ⟨[], [], [], [("B", false)], [("B", 16)]⟩ "b" "YES" false =
      some (⟨[], [], [], [("B", true)], [("B", 16)]⟩, none) ∧
    setOption ⟨[], [], [], [("B", false)], [("B", 16)]⟩ "b" " true " false =
      some (⟨[], [], [], [("B", true)], [("B", 16)]⟩, none) ∧
    setOption ⟨[], [], [], [("B", false)], [("B", 16)]⟩ "b" "1" false =
      some (⟨[], [], [], [("B", true)], [("B", 16)]⟩, none) ∧
    setOption ⟨[], [], [], [("B", false)], [("B", 16)]⟩ "b" "+" false =
      some (⟨[], [], [], [("B", true)], [("B", 16)]⟩, none) ∧
    setOption ⟨[], [], [], [("B", true)], [("B", 16)]⟩ "b" "no" false =
      some (⟨[], [], [], [("B", false)], [("B", 16)]⟩, none) ∧
    setOption ⟨[], [], [], [("B", true)], [("B", 16)]⟩ "b" "0" false =
      some (⟨[], [], [], [("B", false)], [("B", 16)]⟩, none) ∧
    setOption ⟨[], [], [], [("B", true)], [("B", 16)]⟩ "b" "nil" false =
      some (⟨[], [], [], [("B", false)], [("B", 16)]⟩, none) ∧
    setOption ⟨[], [], [], [("B", false)], [("B", 16)]⟩ "b" "maybe" false =
      some (⟨[], [], [], [("B", false)], [("B", 16)]⟩,
        some Err.coercionFailure) := by
  refine ⟨?_, ?_, ?_, ?_, ?_, ?_, ?_, ?_⟩
  · exact ((C4_bool_coercion ⟨[], [], [], [("B", false)], [("B", 16)]⟩ "b" "YES"
      false 16 (by decide) (by decide) (by decide) (by decide) (by decide)
      (by decide)).1 (by decide)).trans (by decide)
  · exact ((C4_bool_coercion ⟨[], [], [], [("B", false)], [("B", 16)]⟩ "b" " true "
      false 16 (by decide) (by decide) (by decide) (by decide) (by decide)
      (by decide)).1 (by decide)).trans (by decide)
  · exact ((C4_bool_coercion ⟨[], [], [], [("B", false)], [("B", 16)]⟩ "b" "1"
      false 16 (by decide) (by decide) (by decide) (by decide) (by decide)
      (by decide)).1 (by decide)).trans (by decide)
  · exact ((C4_bool_coercion ⟨[], [], [], [("B", false)], [("B", 16)]⟩ "b" "+"
      false 16 (by decide) (by decide) (by decide) (by decide) (by decide)
      (by decide)).1 (by decide)).trans (by decide)
  · exact ((C4_bool_coercion ⟨[], [], [], [("B", true)], [("B", 16)]⟩ "b" "no"
      false 16 (by decide) (by decide) (by decide) (by decide) (by decide)
      (by decide)).2.1 (by decide) (by decide)).trans (by decide)
  · exact ((C4_bool_coercion ⟨[], [], [], [("B", true)], [("B", 16)]⟩ "b" "0"
      false 16 (by decide) (by decide) (by decide) (by decide) (by decide)
      (by decide)).2.1 (by decide) (by decide)).trans (by decide)
  · exact ((C4_bool_coercion ⟨[], [], [], [("B", true)], [("B", 16)]⟩ "b" "nil"
      false 16 (by decide) (by decide) (by decide) (by decide) (by decide)
      (by decide)).2.1 (by decide) (by decide)).trans (by decide)
  · exact ((C4_bool_coercion ⟨[], [], [], [("B", false)], [("B", 16)]⟩ "b" "maybe"
      false 16 (by decide) (by decide) (by decide) (by decide) (by decide)
      (by decide)).2.2 (by decide) (by decide))

/-- Normalization a String option applies to a raw value, per the spec:
`Strip` (trim both ends) first when set, then `Lower` when set, else
`Upper` when set. -/
def stringNormalize (strip upper lower : Bool) (v : String) : String :=
  let v1 := if strip then goTrimSpace v else v
  if lower then goToLower v1 else if upper then goToUpper v1 else v1

/-- C5: for a declared String option the stored result is the raw value
normalized by `Strip` first, then `Lower` if set else `Upper` if set
(`Lower` wins when both are set), written with no further validation —
the write always succeeds. -/
theorem C5_string_coercion (reg : Registry) (n v : String) (b : Bool) (fl : Nat)
    (hlk : alookup reg.option_flags (goToUpper n) = some fl)
    (hS : hasAttr fl STRING = true)
    (hp : (alookup reg.str_map (goToUpper n)).isSome = true) :
    setOption reg n v b =
      some ({ reg with str_map := (aset reg.str_map (goToUpper n)
        (stringNormalize (hasAttr fl STRIP) (hasAttr fl UPPER)
          (hasAttr fl LOWER) v)) }, none) ∧
    (∀ w : String, stringNormalize true true true w = goToLower (goTrimSpace w)) ∧
    (∀ w : String, stringNormalize false true true w = goToLower w) := by
  obtain ⟨w, hw⟩ := Option.isSome_iff_exists.mp hp
  refine ⟨?_, ?_, ?_⟩
  · simp [setOption, stringNormalize, hlk, hS, hw]
  · intro w2
    simp [stringNormalize]
  · intro w2
    simp [stringNormalize]

/-- C5 witness: a String option with both `Upper` and `Lower` set maps
input `MixedCase` to `mixedcase`. -/
theorem C5_string_coercion_witness :
    setOption ⟨[("S", "d")], [], [], [], [("S", 134)]⟩ "s" "MixedCase" false =
      some (⟨[("S", "mixedcase")], [], [], [], [("S", 134)]⟩, none) := by
  exact ((C5_string_coercion ⟨[("S", "d")], [], [], [], [("S", 134)]⟩ "s"
    "MixedCase" false 134 (by decide) (by decide) (by decide)).1).trans (by decide)

/-- C6: for a declared Integer option, coercion extracts the leftmost
substring of the raw value matching the integer token pattern — a
maximal digit run when `Unsigned` is set (the sign is never consulted:
the token contains no `-`), otherwise an optional leading minus directly
followed by a maximal digit run — and, when the token parses, writes the
parsed integer to the target.  The conjuncts after the first
characterize the extractors against the pattern language. -/
theorem C6_int_coercion :
    (∀ (reg : Registry) (n v : String) (b : Bool) (fl : Nat) (iv : Int),
      alookup reg.option_flags (goToUpper n) = some fl →
      hasAttr fl STRING = false → hasAttr fl INT = true →
      (alookup reg.int_map (goToUpper n)).isSome = true →
      goAtoi (if hasAttr fl UNSIGNED = true then (findUintToken v.data).getD []
        else (findIntToken v.data).getD []) = some iv →
      setOption reg n v b =
        some ({ reg with int_map := aset reg.int_map (goToUpper n) iv },
          none)) ∧
    (∀ l t, findUintToken l = some t → ∃ pre post, l = pre ++ t ++ post ∧
      t ≠ [] ∧ (∀ c ∈ t, isDigitC c = true) ∧
      (∀ c ∈ pre, isDigitC c = false) ∧
      ∀ d, post.head? = some d → isDigitC d = false) ∧
    (∀ l, findUintToken l = none ↔ ∀ c ∈ l, isDigitC c = false) ∧
    (∀ l t, findIntToken l = some t → ∃ pre ds post, l = pre ++ t ++ post ∧
      ds ≠ [] ∧ (∀ c ∈ ds, isDigitC c = true) ∧ (t = ds ∨ t = '-' :: ds) ∧
      (∀ c ∈ pre, isDigitC c = false) ∧
      (∀ d, post.head? = some d → isDigitC d = false) ∧
      (∀ d, t.head? = some d → isDigitC d = true → pre.getLast? ≠ some '-')) ∧
    (∀ l, findIntToken l = none ↔ ∀ c ∈ l, isDigitC c = false) ∧
    (∀ l t, findUintToken l = some t → '-' ∉ t) := by
  refine ⟨?_, findUintToken_some_spec, findUintToken_none_iff,
    findIntToken_some_spec, findIntToken_none_iff, ?_⟩
  · intro reg n v b fl iv hlk hS hI hp hA
    obtain ⟨w, hw⟩ := Option.isSome_iff_exists.mp hp
    simp [setOption, hlk, hS, hI, hA, hw]
  · intro l t h hmm
    obtain ⟨pre, post, _, _, g3, _, _⟩ := findUintToken_some_spec l t h
    have := g3 '-' hmm
    simp [isDigitC] at this

/-- C6 witness: an Unsigned Integer option given value `-42` extracts
the digits `42` and stores `42`, rather than failing or storing a
negative number. -/
theorem C6_int_coercion_witness :
    setOption ⟨[], [("X", 0)], [], [], [("X", 72)]⟩ "x" "-42" false =
      some (⟨[], [("X", 42)], [], [], [("X", 72)]⟩, none) := by
  exact (C6_int_coercion.1 ⟨[], [("X", 0)], [], [], [("X", 72)]⟩ "x" "-42"
    false 72 42 (by decide) (by decide) (by decide) (by decide)
    (by decide)).trans (by decide)

/-- C8: `Configure` reads exactly the first candidate path that exists
and no other; with no existing candidate it fails with
`NoConfigFileFound`, and when the selected file cannot be opened it
fails with `FileOpenError`.  (The hypothesis excludes the empty string
as a stored path, since `os.Stat ""` never succeeds.) -/
theorem C8_file_discovery (fs : FS) (files : List String) (reg : Registry)
    (b : Bool) (hfs : ∀ e ∈ fs, e.1 ≠ "") :
    (files.find? (statExists fs) = none →
      Configure fs files reg b = some (.error Err.noConfigFileFound)) ∧
    (∀ f, files.find? (statExists fs) = some f →
      Configure fs files reg b =
        (match alookup fs f with
         | some (true, lines) => (processLines reg lines b).map Except.ok
         | some (false, _) => some (.error Err.fileOpenError)
         | none => some (.error Err.fileOpenError))) := by
  constructor
  · intro h
    have hcfg : findCfg fs files = "" := (findCfg_spec fs hfs files).1 h
    unfold Configure
    rw [hcfg, if_pos rfl]
  · intro f h
    obtain ⟨hcfg, hne⟩ := (findCfg_spec fs hfs files).2 f h
    have hstat : statExists fs f = true := List.find?_some h
    obtain ⟨p, hp⟩ := Option.isSome_iff_exists.mp hstat
    obtain ⟨opn, lines⟩ := p
    rw [hp]
    cases opn with
    | true => exact configure_opens fs files reg b f hcfg hne true lines hp
    | false =>
      have := configure_opens fs files reg b f hcfg hne false lines hp
      rw [this]
      rfl

/-- C8 witness: with candidates `[a, b]` where only `b` exists,
`Configure` reads `b`; with neither existing it fails with
`NoConfigFileFound`; with `b` existing but unopenable it fails with
`FileOpenError`. -/
theorem C8_file_discovery_witness :
    Configure [("b", true, ["x=7"])] ["a", "b"]
      ⟨[], [("X", 4)], [], [], [("X", 64)]⟩ false =
      some (.ok ⟨[], [("X", 7)], [], [], [("X", 64)]⟩) ∧
    Configure [] ["a", "b"] Reset false =
      some (.error Err.noConfigFileFound) ∧
    Configure [("b", false, [])] ["a", "b"] Reset false =
      some (.error Err.fileOpenError) := by
  refine ⟨?_, ?_, ?_⟩
  · have := (C8_file_discovery [("b", true, ["x=7"])] ["a", "b"]
      ⟨[], [("X", 4)], [], [], [("X", 64)]⟩ false (by decide)).2 "b" (by decide)
    rw [this]
    decide
  · exact (C8_file_discovery [] ["a", "b"] Reset false (by decide)).1 (by decide)
  · have := (C8_file_discovery [("b", false, [])] ["a", "b"] Reset false
      (by decide)).2 "b" (by decide)
    rw [this]
    rfl

/-- C2: whenever file discovery selects a file that opens, `Configure`
returns success regardless of the file's contents (for any registry the
package's `Reset`/`AddX` interface can build, captured by the coherence
invariant); every per-line `setOption` error leaves the registry
unchanged and scanning continues; in particular an Integer option with
prior value 4 ends at 7 after scanning `x=7` and stays 4 after scanning
`x=notanumber`. -/
theorem C2_scan_robustness :
    (∀ (fs : FS) (files : List String) (reg : Registry) (b : Bool)
       (f : String) (lines : List String), Coherent reg →
       findCfg fs files = f → f ≠ "" → alookup fs f = some (true, lines) →
       ∃ r, Configure fs files reg b = some (.ok r)) ∧
    (∀ (reg : Registry) (n v : String) (b : Bool) (r : Registry) (e : Err),
       setOption reg n v b = some (r, some e) → r = reg) ∧
    Configure [("f", true, ["x=7"])] ["f"]
      ⟨[], [("X", 4)], [], [], [("X", 64)]⟩ false =
      some (.ok ⟨[], [("X", 7)], [], [], [("X", 64)]⟩) ∧
    Configure [("f", true, ["x=notanumber"])] ["f"]
      ⟨[], [("X", 4)], [], [], [("X", 64)]⟩ false =
      some (.ok ⟨[], [("X", 4)], [], [], [("X", 64)]⟩) := by
  refine ⟨?_, ?_, by decide, by decide⟩
  · intro fs files reg b f lines hc hcfg hne hopen
    obtain ⟨r, hr, _⟩ := processLines_total lines reg b hc
    refine ⟨r, ?_⟩
    rw [configure_opens fs files reg b f hcfg hne true lines hopen]
    simp [hr]
  · intro reg n v b r e h
    exact (setOption_result reg n v b r (some e) h).2.2.2.2.2 rfl

/-- C2 witness: a file containing a malformed line, an unrecognized
option and a coercion failure still configures successfully, and the
concrete round trips hold. -/
theorem C2_scan_robustness_witness :
    ∃ r, Configure [("f", true, ["@@@:", "zz=9", "x=notanumber"])] ["f"]
      ⟨[], [("X", 4)], [], [], [("X", 64)]⟩ false = some (.ok r) := by
  have hgr : GoodReach ⟨[], [("X", 4)], [], [], [("X", 64)]⟩ :=
    GoodReach.addInt Reset _ 4 "X" 0 GoodReach.reset (by decide) (by decide)
  exact C2_scan_robustness.1 [("f", true, ["@@@:", "zz=9", "x=notanumber"])]
    ["f"] ⟨[], [("X", 4)], [], [], [("X", 64)]⟩ false "f"
    ["@@@:", "zz=9", "x=notanumber"] (goodReach_coherent _ hgr) (by decide)
    (by decide) (by decide)

/-- C9: running the parse twice on the same file leaves every declared
option's target with the same final value as running it once — the
second run succeeds and changes no stored value. -/
theorem C9_parse_idempotent (fs : FS) (files : List String)
    (reg reg1 : Registry) (b : Bool)
    (h : Configure fs files reg b = some (.ok reg1)) :
    ∃ reg2, Configure fs files reg1 b = some (.ok reg2) ∧
      (∀ k, alookup reg2.str_map k = alookup reg1.str_map k) ∧
      (∀ k, alookup reg2.int_map k = alookup reg1.int_map k) ∧
      (∀ k, alookup reg2.float_map k = alookup reg1.float_map k) ∧
      (∀ k, alookup reg2.bool_map k = alookup reg1.bool_map k) := by
  unfold Configure at h ⊢
  by_cases hf : findCfg fs files = ""
  · rw [if_pos hf] at h
    simp at h
  · rw [if_neg hf] at h ⊢
    cases halk : alookup fs (findCfg fs files) with
    | none =>
      rw [halk] at h
      simp at h
    | some p =>
      obtain ⟨opn, lines⟩ := p
      rw [halk] at h
      cases opn with
      | false => simp at h
      | true =>
        simp only [Bool.not_true, Bool.false_eq_true, if_false] at h ⊢
        cases hpl : processLines reg lines b with
        | none =>
          rw [hpl] at h
          simp at h
        | some r1 =>
          rw [hpl] at h
          have hr1 : r1 = reg1 := by simpa using h
          subst hr1
          obtain ⟨reg2, h2, e1, e2, e3, e4⟩ := processLines_idem lines reg r1 b hpl
          refine ⟨reg2, ?_, e1, e2, e3, e4⟩
          rw [h2]
          rfl

/-- C9 witness: parsing `x=7` a second time from the state the first
parse produced succeeds and changes nothing. -/
theorem C9_parse_idempotent_witness :
    ∃ reg2, Configure [("f", true, ["x=7"])] ["f"]
        ⟨[], [("X", 7)], [], [], [("X", 64)]⟩ false = some (.ok reg2) ∧
      (∀ k, alookup reg2.str_map k =
        alookup (⟨[], [("X", 7)], [], [], [("X", 64)]⟩ : Registry).str_map k) ∧
      (∀ k, alookup reg2.int_map k =
        alookup (⟨[], [("X", 7)], [], [], [("X", 64)]⟩ : Registry).int_map k) ∧
      (∀ k, alookup reg2.float_map k =
        alookup (⟨[], [("X", 7)], [], [], [("X", 64)]⟩ : Registry).float_map k) ∧
      (∀ k, alookup reg2.bool_map k =
        alookup (⟨[], [("X", 7)], [], [], [("X", 64)]⟩ : Registry).bool_map k) := by
  exact C9_parse_idempotent [("f", true, ["x=7"])] ["f"]
    ⟨[], [("X", 4)], [], [], [("X", 64)]⟩
    ⟨[], [("X", 7)], [], [], [("X", 64)]⟩ false (by decide)

/-- The branch `setOption`'s bit cascade selects for a stored flag
value, mirrored from the source's dispatch order. -/
def dispatchBranch (fl : Nat) : Nat :=
  if hasAttr fl STRING then STRING
  else if hasAttr fl INT then INT
  else if hasAttr fl FLOAT then FLOAT
  else if hasAttr fl BOOL then BOOL
  else NONE

/-- C10: for a registry built through `Reset` and successful `AddX`
calls whose flags use only `NONE`/`STRIP`/`UPPER`/`LOWER`/`UNSIGNED`,
`setOption` never dereferences an absent map entry (no panic), never
reaches the final "some logical error" branch, and for every declared
name the branch its bit cascade selects is exactly the option's
registered type. -/
theorem C10_dispatch_safety (reg : Registry) (hreach : GoodReach reg)
    (n v : String) (b : Bool) :
    (setOption reg n v b).isSome = true ∧
    (∀ r, setOption reg n v b ≠ some (r, some Err.logicalError)) ∧
    (∀ fl, alookup reg.option_flags (goToUpper n) = some fl →
      dispatchBranch fl = OptionType reg n ∧ dispatchBranch fl ≠ NONE) := by
  have hc := goodReach_coherent reg hreach
  refine ⟨setOption_isSome reg n v b hc, ?_, ?_⟩
  · intro r hcontra
    obtain ⟨fl, hlk, hS, hI, hF, hB⟩ := setOption_logicalError reg n v b r hcontra
    rcases (hc (goToUpper n)).2 fl hlk with h1 | h2 | h3 | h4
    · rw [h1.1] at hS
      exact Bool.noConfusion hS
    · rw [h2.2.1] at hI
      exact Bool.noConfusion hI
    · rw [h3.2.2.1] at hF
      exact Bool.noConfusion hF
    · rw [h4.2.2.2.1] at hB
      exact Bool.noConfusion hB
  · intro fl hlk
    rcases (hc (goToUpper n)).2 fl hlk with h1 | h2 | h3 | h4
    · obtain ⟨a1, a2, _⟩ := h1
      constructor
      · rw [dispatchBranch, if_pos a1]
        simp [OptionType, a2]
      · rw [dispatchBranch, if_pos a1]
        decide
    · obtain ⟨a1, a2, a3, a4, _⟩ := h2
      constructor
      · rw [dispatchBranch, if_neg (by simp [a1]), if_pos a2]
        simp [OptionType, a3, a4]
      · rw [dispatchBranch, if_neg (by simp [a1]), if_pos a2]
        decide
    · obtain ⟨a1, a2, a3, a4, a5, a6, _⟩ := h3
      constructor
      · rw [dispatchBranch, if_neg (by simp [a1]), if_neg (by simp [a2]),
          if_pos a3]
        simp [OptionType, a4, a5, a6]
      · rw [dispatchBranch, if_neg (by simp [a1]), if_neg (by simp [a2]),
          if_pos a3]
        decide
    · obtain ⟨a1, a2, a3, a4, a5, a6, a7, a8⟩ := h4
      constructor
      · rw [dispatchBranch, if_neg (by simp [a1]), if_neg (by simp [a2]),
          if_neg (by simp [a3]), if_pos a4]
        simp [OptionType, a5, a6, a7, a8]
      · rw [dispatchBranch, if_neg (by simp [a1]), if_neg (by simp [a2]),
          if_neg (by simp [a3]), if_pos a4]
        decide

/-- C10 witness: on a concrete reachable registry with an Integer option
`X`, `setOption` is panic-free and the cascade selects the Integer
branch. -/
theorem C10_dispatch_safety_witness :
    (setOption ⟨[], [("X", 5)], [], [], [("X", 64)]⟩ "x" "7" false).isSome =
      true ∧
    dispatchBranch 64 = OptionType ⟨[], [("X", 5)], [], [], [("X", 64)]⟩ "x" := by
  have hgr : GoodReach ⟨[], [("X", 5)], [], [], [("X", 64)]⟩ :=
    GoodReach.addInt Reset _ 5 "X" 0 GoodReach.reset (by decide) (by decide)
  have h := C10_dispatch_safety ⟨[], [("X", 5)], [], [], [("X", 64)]⟩ hgr "x" "7"
    false
  exact ⟨h.1, (h.2.2 64 (by decide)).1⟩

/-- C3 witness: a comment line is classified as a comment even though it
contains `key=value` text, and the entry `a=b=c` decomposes with the
whole unprocessed remainder `b=c` as its value. -/
theorem C3_line_classification_witness :
    lineClass "  # x=1" = LineClass.comment ∧
    (∃ pre, ("a=b=c" : String).data = pre ++ '=' :: ("b=c" : String).data ∧
      ∀ c ∈ pre, ¬c = ':' ∧ ¬c = '=') := by
  constructor
  · exact ((C3_line_classification "  # x=1").1).mpr (by decide)
  · exact (C3_line_classification "a=b=c").2.2.2.2 "a" "b=c" (by decide)
